import Mathlib

set_option autoImplicit false

/-!
# Verification of the codex-editor statistical engine

Shallow embedding of the alignment/prediction engine of the repository:

* `servers/utils/json_database.py` — `JsonDatabase` (passage table, TF-IDF
  search, LAD score) and the `.bible`/`.codex` ingestion helpers;
* `servers/utils/improved_statistical_glosser.py` — `ImprovedStatisticalGlosser`;
* `servers/utils/bia.py` — `MarkovChain` and `BidirectionalInverseAttention`.

Conventions of the embedding:

* Python lists become `List`, Python dicts become insertion-ordered
  association lists (`List (key × value)`) or, for pure counter tables,
  total functions with pointwise updates (a `defaultdict(int)` is a total
  function that is `0` outside the written keys).
* Machine floats are modelled over `ℚ` where the code only compares or
  truncates values, and over `ℝ` where `math.log` enters a formula.
* File/network I/O is not modelled: functions receive the already-read
  data (e.g. the parsed record list, the corpus string) as arguments.
* Third-party library calls (`sklearn`, `numpy`, `difflib`, `re`) are
  embedded at the level of their documented semantics; where only part of
  that semantics can matter to a theorem (e.g. which cosine scores are
  nonzero), the embedding keeps exactly the part the code observes.
-/

namespace CodexEditor

/-- Fold preserves an invariant: helper used for facts about the ingestion
and training folds. -/
theorem foldl_preserve {α β : Type} {P : β → Prop} (f : β → α → β) (l : List α)
    (init : β) (h0 : P init) (hs : ∀ b a, P b → P (f b a)) :
    P (l.foldl f init) := by
  induction l generalizing init with
  | nil => exact h0
  | cons x xs ih => exact ih _ (hs _ _ h0)

/-- Fold preserves an invariant, with access to list membership of the
element being folded. -/
theorem foldl_preserve_mem {α β : Type} {P : β → Prop} (f : β → α → β) (l : List α)
    (init : β) (h0 : P init) (hs : ∀ b a, a ∈ l → P b → P (f b a)) :
    P (l.foldl f init) := by
  induction l generalizing init with
  | nil => exact h0
  | cons x xs ih =>
    exact ih _ (hs _ _ (List.mem_cons_self _ _) h0)
      (fun b a ha hb => hs b a (List.mem_cons_of_mem _ ha) hb)

/-! ## `difflib.SequenceMatcher` (used by `similarity`, json_database.py:35-47)

The repository computes `SequenceMatcher(None, first, second).ratio() * 100`
and truncates with `int(...)`.  `ratio` is `2*M/T` where `M` is the total
size of the matching blocks found by the Ratcliff-Obershelp recursion
(longest matching block, then recurse left and right of it) and `T` is the
total length of both strings; for `T = 0` Python defines the ratio as `1.0`.
`difflib`'s junk/popularity heuristics only restrict which blocks may
match; the bounds proved below do not depend on them. -/

/-- Length of the common run of equal characters at the head of both lists:
the extent of the matching block anchored at the two current positions. -/
def commonRunLen : List Char → List Char → Nat
  | a :: as, b :: bs => if a = b then commonRunLen as bs + 1 else 0
  | _, _ => 0

theorem commonRunLen_le_left : ∀ a b : List Char, commonRunLen a b ≤ a.length
  | [], _ => Nat.le_refl _
  | _ :: _, [] => by simp [commonRunLen]
  | a :: as, b :: bs => by
    simp only [commonRunLen]
    split
    · exact Nat.succ_le_succ (commonRunLen_le_left as bs)
    · exact Nat.zero_le _

theorem commonRunLen_le_right : ∀ a b : List Char, commonRunLen a b ≤ b.length
  | [], _ => Nat.zero_le _
  | _ :: _, [] => by simp [commonRunLen]
  | a :: as, b :: bs => by
    simp only [commonRunLen]
    split
    · exact Nat.succ_le_succ (commonRunLen_le_right as bs)
    · exact Nat.zero_le _

/-- `difflib.SequenceMatcher.find_longest_match`: the longest matching
block `(i, j, k)`, earliest in `a`, then earliest in `b`, among maximal
blocks (junk handling omitted, see module comment). -/
def bestMatch (a b : List Char) : Nat × Nat × Nat :=
  (List.range a.length).foldl (fun best i =>
    (List.range b.length).foldl (fun best j =>
      let k := commonRunLen (a.drop i) (b.drop j)
      if best.2.2 < k then (i, j, k) else best) best) (0, 0, 0)

/-- Any candidate kept by `bestMatch` stays inside both lists. -/
theorem bestMatch_bounds (a b : List Char) :
    (bestMatch a b).1 + (bestMatch a b).2.2 ≤ a.length ∧
    (bestMatch a b).2.1 + (bestMatch a b).2.2 ≤ b.length := by
  unfold bestMatch
  apply foldl_preserve_mem (P := fun t : Nat × Nat × Nat =>
    t.1 + t.2.2 ≤ a.length ∧ t.2.1 + t.2.2 ≤ b.length)
  · exact ⟨Nat.zero_le _, Nat.zero_le _⟩
  · intro best i hi hbest
    rw [List.mem_range] at hi
    apply foldl_preserve_mem (P := fun t : Nat × Nat × Nat =>
      t.1 + t.2.2 ≤ a.length ∧ t.2.1 + t.2.2 ≤ b.length)
    · exact hbest
    · intro t j hj ht
      rw [List.mem_range] at hj
      dsimp only
      split
      · dsimp only
        constructor
        · have := commonRunLen_le_left (a.drop i) (b.drop j)
          simp only [List.length_drop] at this
          omega
        · have := commonRunLen_le_right (a.drop i) (b.drop j)
          simp only [List.length_drop] at this
          omega
      · exact ht

/-- Total size of the matching blocks of the Ratcliff-Obershelp recursion
(`get_matching_blocks`): the longest matching block plus the matches found
recursively to its left and to its right. -/
def matchTotal (a b : List Char) : Nat :=
  if (bestMatch a b).2.2 = 0 then 0
  else
    matchTotal (a.take (bestMatch a b).1) (b.take (bestMatch a b).2.1) +
      (bestMatch a b).2.2 +
      matchTotal (a.drop ((bestMatch a b).1 + (bestMatch a b).2.2))
        (b.drop ((bestMatch a b).2.1 + (bestMatch a b).2.2))
termination_by a.length + b.length
decreasing_by
  · have h := bestMatch_bounds a b
    simp only [List.length_take, List.length_drop]
    omega
  · have h := bestMatch_bounds a b
    simp only [List.length_take, List.length_drop]
    omega

/-- The matched total never exceeds either side's length. -/
theorem matchTotal_le (a b : List Char) :
    matchTotal a b ≤ a.length ∧ matchTotal a b ≤ b.length := by
  rw [matchTotal]
  split
  · exact ⟨Nat.zero_le _, Nat.zero_le _⟩
  · have hb := bestMatch_bounds a b
    have hl := matchTotal_le (a.take (bestMatch a b).1) (b.take (bestMatch a b).2.1)
    have hr := matchTotal_le (a.drop ((bestMatch a b).1 + (bestMatch a b).2.2))
      (b.drop ((bestMatch a b).2.1 + (bestMatch a b).2.2))
    simp only [List.length_take, List.length_drop] at hl hr
    omega
termination_by a.length + b.length
decreasing_by
  · have h := bestMatch_bounds a b
    simp only [List.length_take, List.length_drop]
    omega
  · have h := bestMatch_bounds a b
    simp only [List.length_take, List.length_drop]
    omega

/-- `similarity` (json_database.py:35-47):
`int(SequenceMatcher(None, first, second).ratio() * 100)`.
For two empty strings Python's `ratio()` is `1.0`, so the result is `100`;
otherwise `⌊200·M/T⌋` (the `int(...)` of a nonnegative float truncates). -/
def similarity (first second : String) : Nat :=
  let t := first.length + second.length
  if t = 0 then 100
  else 200 * matchTotal first.data second.data / t

/-- The similarity score is always at most 100. -/
theorem similarity_le_100 (first second : String) : similarity first second ≤ 100 := by
  unfold similarity
  dsimp only
  split
  · exact Nat.le_refl _
  · rename_i h
    have hm := matchTotal_le first.data second.data
    have hlen : 200 * matchTotal first.data second.data ≤
        100 * (first.length + second.length) := by
      simp only [String.length] at *
      omega
    calc 200 * matchTotal first.data second.data / (first.length + second.length)
        ≤ 100 * (first.length + second.length) / (first.length + second.length) :=
          Nat.div_le_div_right hlen
      _ = 100 := Nat.mul_div_cancel _ (Nat.pos_of_ne_zero h)

theorem similarity_nil : similarity "" "" = 100 := rfl

/-! ## `JsonDatabase` (json_database.py:49-599)

The database state.  `dictionary` is a Python dict, modelled as an
insertion-ordered association list with unique keys; the TF-IDF
vectorizers/matrices live in `sklearn`, so the state only records whether a
fitted matrix is present (`true`) or `None` (`false`), and `search` takes
the cosine-similarity scoring of the fitted index as a pure function
argument (`simS`/`simT : query → indexed text → score`) — on an unchanged
index two calls see the same function. -/

/-- A parsed passage record `{ref, text, uri}` as produced by the
extraction helpers. -/
structure Verse where
  ref : String
  text : String
  uri : String
deriving DecidableEq, Repr

/-- One slot of `self.dictionary`: the per-reference dict with optional
`source`/`source_uri`/`target`/`target_uri` keys. -/
structure Entry where
  source : Option String := none
  source_uri : Option String := none
  target : Option String := none
  target_uri : Option String := none
deriving DecidableEq, Repr

/-- One element of a `search` result list. -/
structure SearchResult where
  ref : String
  text : String
  uri : String
deriving DecidableEq, Repr

structure JsonDatabase where
  dictionary : List (String × Entry)
  source_texts : List String
  target_texts : List String
  source_references : List String
  target_references : List String
  source_uris : List String
  target_uris : List String
  complete_draft : String
  tfidf_matrix_source : Bool
  tfidf_matrix_target : Bool
deriving Repr

/-- `ref in self.dictionary`. -/
def containsRef (d : List (String × Entry)) (r : String) : Bool :=
  d.any (fun p => p.1 = r)

/-- `self.dictionary[ref]` (first — and by the key-uniqueness invariant
only — binding). -/
def lookupEntry (d : List (String × Entry)) (r : String) : Option Entry :=
  (d.find? (fun p => p.1 = r)).map (fun p => p.2)

/-- `self.dictionary[ref].update(...)`: rewrite the slot of key `r` in
place. -/
def updateEntry (d : List (String × Entry)) (r : String) (f : Entry → Entry) :
    List (String × Entry) :=
  d.map (fun p => if p.1 = r then (p.1, f p.2) else p)

/-- `JsonDatabase.__init__` (json_database.py:55-77). -/
def emptyDatabase : JsonDatabase where
  dictionary := []
  source_texts := []
  target_texts := []
  source_references := []
  target_references := []
  source_uris := []
  target_uris := []
  complete_draft := ""
  tfidf_matrix_source := false
  tfidf_matrix_target := false

/-- One iteration of the target (codex) ingestion loop
(json_database.py:125-139): an existing reference has its slot updated in
place; a new reference is created unless the text is shorter than 4
characters (`continue`); in both non-skipped cases the text/ref/uri are
appended to the target collection lists and the draft string. -/
def ingestTargetVerse (db : JsonDatabase) (v : Verse) : JsonDatabase :=
  if containsRef db.dictionary v.ref then
    { db with
      dictionary := updateEntry db.dictionary v.ref
        (fun e => { e with target := some v.text, target_uri := some v.uri }),
      target_texts := db.target_texts ++ [v.text],
      target_references := db.target_references ++ [v.ref],
      target_uris := db.target_uris ++ [v.uri],
      complete_draft := db.complete_draft ++ " " ++ v.text }
  else if v.text.length < 4 then db
  else
    { db with
      dictionary := db.dictionary ++
        [(v.ref, { target := some v.text, target_uri := some v.uri })],
      target_texts := db.target_texts ++ [v.text],
      target_references := db.target_references ++ [v.ref],
      target_uris := db.target_uris ++ [v.uri],
      complete_draft := db.complete_draft ++ " " ++ v.text }

/-- One iteration of the source (bible) ingestion loop
(json_database.py:141-151): ensure the slot exists, then overwrite its
source side and append to the source collection lists. -/
def ingestSourceVerse (db : JsonDatabase) (v : Verse) : JsonDatabase :=
  let db' :=
    if containsRef db.dictionary v.ref then db
    else { db with dictionary := db.dictionary ++ [(v.ref, {})] }
  { db' with
    dictionary := updateEntry db'.dictionary v.ref
      (fun e => { e with source := some v.text, source_uri := some v.uri }),
    source_texts := db'.source_texts ++ [v.text],
    source_references := db'.source_references ++ [v.ref],
    source_uris := db'.source_uris ++ [v.uri] }

/-- `create_database` (json_database.py:79-194), ingestion and index-fitting
core.  File discovery/parsing and the glosser hookup are I/O collaborators:
the function receives the already-extracted record lists.  `fitSourceOk`/
`fitTargetOk` abstract whether `TfidfVectorizer.fit_transform` succeeds
(it raises on an empty vocabulary, leaving the matrix `None`); with no
texts at all the matrix is `None` regardless. -/
def create_database (target_files source_files : List Verse)
    (fitSourceOk fitTargetOk : Bool) : JsonDatabase :=
  let db := target_files.foldl ingestTargetVerse emptyDatabase
  let db := source_files.foldl ingestSourceVerse db
  { db with
    tfidf_matrix_source := !db.source_texts.isEmpty && fitSourceOk,
    tfidf_matrix_target := !db.target_texts.isEmpty && fitTargetOk }

/-- `get_text` (json_database.py:561-583).  The target side goes through
`self.target_references.index(ref)` — the FIRST occurrence — and returns
the text at that position; otherwise the dictionary slot is consulted
(`''` when absent).  Only the two documented `text_type` values are
modelled. -/
def JsonDatabase.get_text (db : JsonDatabase) (ref : String) (text_type : String) :
    String :=
  if text_type = "target" then
    match (db.target_references.zip db.target_texts).find? (fun p => p.1 = ref) with
    | some p => p.2
    | none => ""
  else if text_type = "source" then
    match lookupEntry db.dictionary ref with
    | some e => e.source.getD ""
    | none => ""
  else ""

/-- Stable insertion of index `i` into an index list ascending by score
(equal scores keep earlier-inserted indices first). -/
def insertAsc (v : Nat → ℚ) (i : Nat) : List Nat → List Nat
  | [] => [i]
  | j :: js => if v j ≤ v i then j :: insertAsc v i js else i :: j :: js

/-- `numpy.argsort` over a score row: a permutation of `range n` ordering
the scores ascending.  numpy's tie order is unspecified but a fixed
function of the array; the embedding picks the stable order, and no
theorem below depends on the tie order. -/
def argsortAsc (xs : List ℚ) : List Nat :=
  (List.range xs.length).foldl (fun acc i => insertAsc (fun k => xs.getD k 0) i acc) []

/-- Python's `l[-n:]`: the last `n` elements — except that `l[-0:]` is the
WHOLE list. -/
def pyLastSlice {α : Type} (n : Nat) (l : List α) : List α :=
  if n = 0 then l else l.drop (l.length - n)

/-- `search` (json_database.py:383-417).  `simS`/`simT` are the cosine
scores of the query against each indexed text of the fitted
source/target index (`cosine_similarity(query_vector, matrix)`), pure
functions of the unchanged index.  With a `None` matrix the degraded
branch returns table entries with empty text.  A `text_type` other than
`"source"`/`"target"` raises in Python (callers never do this); the
embedding returns `[]` there. -/
def JsonDatabase.search (simS simT : String → String → ℚ) (db : JsonDatabase)
    (query_text : String) (text_type : String) (top_n : Nat) : List SearchResult :=
  if text_type = "source" then
    if db.tfidf_matrix_source = false then
      (((db.source_references.zip db.source_uris).filter
        (fun p => containsRef db.dictionary p.1)).map
        (fun p => ({ ref := p.1, text := "", uri := p.2 } : SearchResult))).take top_n
    else
      let sims := db.source_texts.map (simS query_text)
      let top_indices := (pyLastSlice top_n (argsortAsc sims)).reverse
      (top_indices.filter
        (fun i => containsRef db.dictionary (db.source_references.getD i ""))).map
        (fun i => ({ ref := db.source_references.getD i "",
                     text := db.source_texts.getD i "",
                     uri := db.source_uris.getD i "" } : SearchResult))
  else if text_type = "target" then
    if db.tfidf_matrix_target = false then
      ((db.target_references.zip db.target_uris).map
        (fun p => ({ ref := p.1, text := "", uri := p.2 } : SearchResult))).take top_n
    else
      let sims := db.target_texts.map (simT query_text)
      let top_indices := (pyLastSlice top_n (argsortAsc sims)).reverse
      top_indices.map
        (fun i => ({ ref := db.target_references.getD i "",
                     text := db.target_texts.getD i "",
                     uri := db.target_uris.getD i "" } : SearchResult))
  else []

/-- `get_lad` (json_database.py:419-459).  `common_refs` is built as
`list(set(target_refs) & set(source_refs))` and used purely for
membership, so it is embedded as the membership test itself.  The
defensive `isinstance`/exception paths returning `0` never fire in the
pure embedding. -/
def JsonDatabase.get_lad (simS simT : String → String → ℚ) (db : JsonDatabase)
    (query reference : String) (n_samples : Nat) : Nat :=
  let target_results := db.search simS simT query "target" 100
  let source_text := db.get_text reference "source"
  let source_results := db.search simS simT source_text "source" 100
  let target_refs := target_results.map (fun i => i.ref)
  let source_refs := source_results.map (fun i => i.ref)
  let target_common := (target_results.filter
    (fun i => target_refs.contains i.ref && source_refs.contains i.ref)).take n_samples
  let source_common := (source_results.filter
    (fun i => target_refs.contains i.ref && source_refs.contains i.ref)).take n_samples
  let ref_string_target := String.join (target_common.map (fun i => i.ref))
  let ref_string_source := String.join (source_common.map (fun i => i.ref))
  similarity ref_string_target ref_string_source

/-! ### Claim C1 -/

/-- A concrete score function standing in for the fitted cosine similarity
in closed examples (its values are irrelevant there). -/
def zeroSim : String → String → ℚ := fun _ _ => 0

/-- The database of a project with no `.bible` and no codex records. -/
def c1db : JsonDatabase := create_database [] [] false false

/-- **C1, counterexample.**  On the empty database both searches yield zero
hits, yet `get_lad` returns `100`, not `0`: the two concatenated common-
reference strings are empty and `SequenceMatcher('', '').ratio()` is `1.0`,
so `int(ratio*100) = 100`. -/
theorem c1_counterexample :
    JsonDatabase.search zeroSim zeroSim c1db "q" "target" 100 = [] ∧
    JsonDatabase.search zeroSim zeroSim c1db (c1db.get_text "r" "source") "source" 100
      = [] ∧
    JsonDatabase.get_lad zeroSim zeroSim c1db "q" "r" 5 = 100 :=
  ⟨rfl, rfl, rfl⟩

/-- **C1, amended.**  For every database state, query and reference,
`get_lad` always returns a value in [0,100]; repeated calls with identical
inputs on an unchanged index return identical scores; and whenever either
side's search yields zero hits the returned score is `100` (not `0`): both
concatenated reference strings are then empty and the similarity of two
empty strings is 100. -/
theorem c1_amended (simS simT : String → String → ℚ) (db : JsonDatabase)
    (q r : String) (n : Nat) :
    JsonDatabase.get_lad simS simT db q r n ≤ 100 ∧
    JsonDatabase.get_lad simS simT db q r n = JsonDatabase.get_lad simS simT db q r n ∧
    ((db.search simS simT q "target" 100 = [] ∨
      db.search simS simT (db.get_text r "source") "source" 100 = []) →
      JsonDatabase.get_lad simS simT db q r n = 100) := by
  refine ⟨?_, rfl, ?_⟩
  · simp only [JsonDatabase.get_lad]
    exact similarity_le_100 _ _
  · intro h
    simp only [JsonDatabase.get_lad]
    rcases h with h | h <;>
      (simp [h, List.filter_eq_nil_iff]; exact similarity_nil)

/-- Witness for `c1_amended` at the empty database. -/
theorem c1_amended_witness :
    JsonDatabase.get_lad zeroSim zeroSim c1db "q" "r" 5 ≤ 100 ∧
    JsonDatabase.get_lad zeroSim zeroSim c1db "q" "r" 5 = 100 :=
  ⟨(c1_amended zeroSim zeroSim c1db "q" "r" 5).1,
   (c1_amended zeroSim zeroSim c1db "q" "r" 5).2.2 (Or.inl rfl)⟩

/-! ### Claim C8 -/

/-- For `n ≥ 1`, Python's `l[-n:][::-1]` is the first `n` elements of the
reversed list. -/
theorem reverse_pyLastSlice {α : Type} (n : Nat) (hn : 1 ≤ n) (l : List α) :
    (pyLastSlice n l).reverse = l.reverse.take n := by
  unfold pyLastSlice
  rw [if_neg (by omega), List.reverse_drop]
  rcases Nat.le_total n l.length with h | h
  · congr 1
    omega
  · rw [show l.length - (l.length - n) = l.length from by omega]
    rw [show l.length = l.reverse.length from (List.length_reverse l).symm,
      List.take_length, List.take_of_length_le (by simpa using h)]

theorem mem_insertAsc (v : Nat → ℚ) (i x : Nat) :
    ∀ l : List Nat, x ∈ insertAsc v i l → x = i ∨ x ∈ l
  | [], h => by simpa [insertAsc] using h
  | j :: js, h => by
    simp only [insertAsc] at h
    split at h
    · rcases List.mem_cons.mp h with h | h
      · exact Or.inr (h ▸ List.mem_cons_self _ _)
      · rcases mem_insertAsc v i x js h with h | h
        · exact Or.inl h
        · exact Or.inr (List.mem_cons_of_mem _ h)
    · rcases List.mem_cons.mp h with h | h
      · exact Or.inl h
      · exact Or.inr h

/-- Every index produced by the argsort is a valid row index. -/
theorem mem_argsortAsc (xs : List ℚ) (i : Nat) (h : i ∈ argsortAsc xs) :
    i < xs.length := by
  unfold argsortAsc at h
  revert h
  refine fun h => foldl_preserve_mem
    (P := fun acc : List Nat => ∀ j ∈ acc, j < xs.length) _ (List.range xs.length) []
    (by intro j hj; simp at hj) ?_ i h
  intro acc k hk hacc j hj
  rcases mem_insertAsc _ k j acc hj with rfl | hj
  · exact List.mem_range.mp hk
  · exact hacc j hj

/-- `containsRef` is preserved by in-place updates and by key insertion. -/
theorem containsRef_updateEntry (d : List (String × Entry)) (k r : String)
    (f : Entry → Entry) (h : containsRef d r = true) :
    containsRef (updateEntry d k f) r = true := by
  simp only [containsRef, updateEntry, List.any_eq_true] at *
  obtain ⟨p, hp, hr⟩ := h
  refine ⟨if p.1 = k then (p.1, f p.2) else p, List.mem_map.mpr ⟨p, hp, rfl⟩, ?_⟩
  split <;> simpa using hr

theorem containsRef_append (d : List (String × Entry)) (q : List (String × Entry))
    (r : String) (h : containsRef d r = true) : containsRef (d ++ q) r = true := by
  simp only [containsRef, List.any_eq_true, List.mem_append] at *
  obtain ⟨p, hp, hr⟩ := h
  exact ⟨p, Or.inl hp, hr⟩

/-- The target ingestion step leaves the source collection lists alone. -/
theorem ingestTargetVerse_source_refs (db : JsonDatabase) (v : Verse) :
    (ingestTargetVerse db v).source_references = db.source_references ∧
    (ingestTargetVerse db v).source_texts = db.source_texts := by
  unfold ingestTargetVerse
  split
  · exact ⟨rfl, rfl⟩
  · split
    · exact ⟨rfl, rfl⟩
    · exact ⟨rfl, rfl⟩

/-- The target ingestion step never removes a dictionary slot. -/
theorem ingestTargetVerse_contains (db : JsonDatabase) (v : Verse) (r : String)
    (h : containsRef db.dictionary r = true) :
    containsRef (ingestTargetVerse db v).dictionary r = true := by
  unfold ingestTargetVerse
  split
  · simpa using containsRef_updateEntry _ _ _ _ h
  · split
    · exact h
    · simpa using containsRef_append _ _ _ h

/-- The source ingestion step appends one aligned element to the source
lists. -/
theorem ingestSourceVerse_source_refs (db : JsonDatabase) (v : Verse) :
    (ingestSourceVerse db v).source_references = db.source_references ++ [v.ref] ∧
    (ingestSourceVerse db v).source_texts = db.source_texts ++ [v.text] := by
  unfold ingestSourceVerse
  dsimp only
  split
  · exact ⟨rfl, rfl⟩
  · exact ⟨rfl, rfl⟩

/-- After a source ingestion step the ingested reference, and every
previously present reference, has a dictionary slot. -/
theorem ingestSourceVerse_contains (db : JsonDatabase) (v : Verse) (r : String)
    (h : containsRef db.dictionary r = true ∨ r = v.ref) :
    containsRef (ingestSourceVerse db v).dictionary r = true := by
  unfold ingestSourceVerse
  dsimp only
  split
  · rename_i hc
    rcases h with h | rfl
    · simpa using containsRef_updateEntry _ _ _ _ h
    · simpa using containsRef_updateEntry _ _ _ _ hc
  · rcases h with h | rfl
    · simpa using containsRef_updateEntry _ _ _ _ (containsRef_append _ _ _ h)
    · apply containsRef_updateEntry
      simp [containsRef]

/-- Construction invariant of `create_database`: the source collection
lists stay aligned and every source reference has a dictionary slot (the
source loop inserts one), so the dictionary filter inside the ranked
source search never drops anything. -/
theorem create_database_invariant (tf sf : List Verse) (fs ft : Bool) :
    (∀ r ∈ (create_database tf sf fs ft).source_references,
      containsRef (create_database tf sf fs ft).dictionary r = true) ∧
    (create_database tf sf fs ft).source_references.length =
      (create_database tf sf fs ft).source_texts.length := by
  unfold create_database
  dsimp only
  have step2 : ∀ (db : JsonDatabase) (v : Verse),
      ((∀ r ∈ db.source_references, containsRef db.dictionary r = true) ∧
        db.source_references.length = db.source_texts.length) →
      (∀ r ∈ (ingestSourceVerse db v).source_references,
        containsRef (ingestSourceVerse db v).dictionary r = true) ∧
        (ingestSourceVerse db v).source_references.length =
          (ingestSourceVerse db v).source_texts.length := by
    intro db v ⟨hmem, hlen⟩
    obtain ⟨hr, ht⟩ := ingestSourceVerse_source_refs db v
    refine ⟨?_, by rw [hr, ht]; simp [hlen]⟩
    intro r hmem2
    rw [hr] at hmem2
    rcases List.mem_append.mp hmem2 with h | h
    · exact ingestSourceVerse_contains db v r (Or.inl (hmem r h))
    · exact ingestSourceVerse_contains db v r (Or.inr (by simpa using h))
  have step1 : ∀ (db : JsonDatabase) (v : Verse),
      ((∀ r ∈ db.source_references, containsRef db.dictionary r = true) ∧
        db.source_references.length = db.source_texts.length) →
      (∀ r ∈ (ingestTargetVerse db v).source_references,
        containsRef (ingestTargetVerse db v).dictionary r = true) ∧
        (ingestTargetVerse db v).source_references.length =
          (ingestTargetVerse db v).source_texts.length := by
    intro db v ⟨hmem, hlen⟩
    obtain ⟨hr, ht⟩ := ingestTargetVerse_source_refs db v
    rw [hr, ht]
    exact ⟨fun r h => ingestTargetVerse_contains db v r (hmem r h), hlen⟩
  refine foldl_preserve (P := fun db : JsonDatabase =>
    (∀ r ∈ db.source_references, containsRef db.dictionary r = true) ∧
    db.source_references.length = db.source_texts.length) _ sf _ ?_
    (fun b a h => step2 b a h)
  refine foldl_preserve (P := fun db : JsonDatabase =>
    (∀ r ∈ db.source_references, containsRef db.dictionary r = true) ∧
    db.source_references.length = db.source_texts.length) _ tf _ ?_
    (fun b a h => step1 b a h)
  exact ⟨by intro r hr; simp [emptyDatabase] at hr, rfl⟩

/-- The single-target-record database with a fitted target index, used in
closed C8 examples. -/
def c8db : JsonDatabase :=
  create_database [{ ref := "r", text := "abcd", uri := "u" }] [] false true

/-- **C8, counterexample.**  With `n₁ = 0 ≤ n₂ = 1` the claim fails:
Python's `similarities.argsort()[0][-top_n:]` with `top_n = 0` is the
WHOLE row (`l[-0:] = l`), so a `topN = 0` search returns every record,
while the first `0` results of a `topN = 1` search are `[]`. -/
theorem c8_counterexample :
    (JsonDatabase.search zeroSim zeroSim c8db "q" "target" 0 =
      [{ ref := "r", text := "abcd", uri := "u" }]) ∧
    (JsonDatabase.search zeroSim zeroSim c8db "q" "target" 1).take 0 = [] :=
  ⟨rfl, rfl⟩

/-- **C8, amended.**  On an unchanged index (any database built by
`create_database`, any fixed cosine scoring), `search` is deterministic,
and for all `1 ≤ n₁ ≤ n₂` the first `n₁` results of a `topN = n₂` call
equal the entire result list of a `topN = n₁` call.  (`topN = 0` is
excluded: `l[-0:]` is the whole list, see the counterexample.) -/
theorem c8_amended (tf sf : List Verse) (fs ft : Bool)
    (simS simT : String → String → ℚ) (q ty : String) (n1 n2 : Nat)
    (h1 : 1 ≤ n1) (h12 : n1 ≤ n2) :
    (create_database tf sf fs ft).search simS simT q ty n1 =
      (create_database tf sf fs ft).search simS simT q ty n1 ∧
    ((create_database tf sf fs ft).search simS simT q ty n2).take n1 =
      (create_database tf sf fs ft).search simS simT q ty n1 := by
  refine ⟨rfl, ?_⟩
  obtain ⟨hdict, hlen⟩ := create_database_invariant tf sf fs ft
  set db := create_database tf sf fs ft with hdb
  have hn2 : 1 ≤ n2 := le_trans h1 h12
  unfold JsonDatabase.search
  dsimp only
  by_cases hs : ty = "source"
  · rw [if_pos hs, if_pos hs]
    by_cases hm : db.tfidf_matrix_source = false
    · rw [if_pos hm, if_pos hm, List.take_take, Nat.min_eq_left h12]
    · rw [if_neg hm, if_neg hm]
      have hfilter : ∀ n,
          ((pyLastSlice n (argsortAsc (db.source_texts.map (simS q)))).reverse.filter
            (fun i => containsRef db.dictionary (db.source_references.getD i ""))) =
          (pyLastSlice n (argsortAsc (db.source_texts.map (simS q)))).reverse := by
        intro n
        apply List.filter_eq_self.mpr
        intro i hi
        rw [List.mem_reverse] at hi
        have hi2 : i ∈ argsortAsc (db.source_texts.map (simS q)) := by
          unfold pyLastSlice at hi
          split at hi
          · exact hi
          · exact List.mem_of_mem_drop hi
        have hilt := mem_argsortAsc _ _ hi2
        rw [List.length_map] at hilt
        rw [← hlen] at hilt
        have : db.source_references.getD i "" ∈ db.source_references := by
          rw [List.getD_eq_getElem _ _ hilt]
          exact List.getElem_mem _
        exact hdict _ this
      rw [hfilter, hfilter, reverse_pyLastSlice n1 h1, reverse_pyLastSlice n2 hn2,
        ← List.map_take, List.take_take, Nat.min_eq_left h12]
  · rw [if_neg hs, if_neg hs]
    by_cases ht : ty = "target"
    · rw [if_pos ht, if_pos ht]
      by_cases hm : db.tfidf_matrix_target = false
      · rw [if_pos hm, if_pos hm, List.take_take, Nat.min_eq_left h12]
      · rw [if_neg hm, if_neg hm, reverse_pyLastSlice n1 h1, reverse_pyLastSlice n2 hn2,
          ← List.map_take, List.take_take, Nat.min_eq_left h12]
    · rw [if_neg ht, if_neg ht]
      simp

/-- Witness for `c8_amended` at the concrete single-record database with
`n₁ = 1`, `n₂ = 2`. -/
theorem c8_amended_witness :
    (JsonDatabase.search zeroSim zeroSim c8db "q" "target" 2).take 1 =
      JsonDatabase.search zeroSim zeroSim c8db "q" "target" 1 :=
  (c8_amended [{ ref := "r", text := "abcd", uri := "u" }] [] false true
    zeroSim zeroSim "q" "target" 1 2 (by decide) (by decide)).2

/-! ### Claim C4 — helper lemmas about the dictionary and the target lists -/

/-- The source text stored in the dictionary slot of `r` (if any). -/
def sourceOf (db : JsonDatabase) (r : String) : Option String :=
  (lookupEntry db.dictionary r).bind Entry.source

/-- The text `get_text(r, "target")` finds:
`target_texts[target_references.index(r)]`. -/
def lookupZipTarget (db : JsonDatabase) (r : String) : Option String :=
  ((db.target_references.zip db.target_texts).find? (fun p => p.1 = r)).map
    (fun p => p.2)

theorem get_text_source_eq (db : JsonDatabase) (r : String) :
    db.get_text r "source" = (sourceOf db r).getD "" := by
  unfold JsonDatabase.get_text sourceOf
  rw [if_neg (by decide), if_pos rfl]
  cases lookupEntry db.dictionary r with
  | none => rfl
  | some e => cases e.source <;> rfl

theorem get_text_target_eq (db : JsonDatabase) (r : String) :
    db.get_text r "target" = (lookupZipTarget db r).getD "" := by
  unfold JsonDatabase.get_text lookupZipTarget
  rw [if_pos rfl]
  cases (db.target_references.zip db.target_texts).find? (fun p => p.1 = r) <;> rfl

/-- `find?` only looks at the predicate's values. -/
theorem find?_congr {α : Type} (p q : α → Bool) :
    ∀ l : List α, (∀ x ∈ l, p x = q x) → l.find? p = l.find? q
  | [], _ => rfl
  | x :: xs, h => by
    have hx := h x (List.mem_cons_self _ _)
    simp only [List.find?, hx]
    cases q x with
    | true => rfl
    | false => exact find?_congr p q xs (fun y hy => h y (List.mem_cons_of_mem _ hy))

theorem lookupEntry_updateEntry (d : List (String × Entry)) (k : String)
    (f : Entry → Entry) (r : String) :
    lookupEntry (updateEntry d k f) r =
      if r = k then (lookupEntry d r).map f else lookupEntry d r := by
  unfold lookupEntry updateEntry
  rw [List.find?_map]
  rw [find?_congr _ (fun p : String × Entry => decide (p.1 = r)) d (by
    intro p _
    by_cases h : p.1 = k <;> simp [h])]
  cases hf : d.find? (fun p : String × Entry => decide (p.1 = r)) with
  | none => simp
  | some p =>
    have hp : p.1 = r := by simpa using List.find?_some hf
    by_cases hrk : r = k
    · subst hrk
      simp [hp]
    · simp [hp, hrk]

theorem lookupEntry_append_single (d : List (String × Entry)) (k : String)
    (e : Entry) (r : String) :
    lookupEntry (d ++ [(k, e)]) r =
      (lookupEntry d r).or (if r = k then some e else none) := by
  unfold lookupEntry
  rw [List.find?_append]
  cases hfind : d.find? (fun p => p.1 = r) with
  | some p => rfl
  | none =>
    by_cases hk : r = k
    · subst hk
      simp [List.find?]
    · have hkr : ¬ k = r := fun h => hk h.symm
      simp [List.find?, hk, hkr]

theorem containsRef_iff (d : List (String × Entry)) (r : String) :
    containsRef d r = true ↔ (lookupEntry d r).isSome = true := by
  unfold containsRef lookupEntry
  rw [List.any_eq_true]
  cases hf : d.find? (fun p => decide (p.1 = r)) with
  | none =>
    constructor
    · rintro ⟨x, hx, hpx⟩
      have h2 := List.find?_eq_none.mp hf x hx
      exact absurd hpx (by simpa using h2)
    · intro h
      exact absurd h (by simp)
  | some p =>
    have hp := List.find?_some hf
    have hm := List.mem_of_find?_eq_some hf
    exact ⟨fun _ => rfl, fun _ => ⟨p, hm, hp⟩⟩

theorem lookupEntry_eq_none_of_not_contains (d : List (String × Entry)) (r : String)
    (h : ¬ containsRef d r = true) : lookupEntry d r = none := by
  cases hl : lookupEntry d r with
  | none => rfl
  | some e => exact absurd ((containsRef_iff d r).mpr (by simp [hl])) h

/-- The target ingestion loop never writes a source text. -/
theorem sourceOf_ingestTarget (db : JsonDatabase) (v : Verse) (r : String) :
    sourceOf (ingestTargetVerse db v) r = sourceOf db r := by
  unfold ingestTargetVerse
  split
  · simp only [sourceOf]
    rw [lookupEntry_updateEntry]
    split
    · cases lookupEntry db.dictionary r <;> rfl
    · rfl
  · split
    · rfl
    · rename_i hc _
      simp only [sourceOf]
      rw [lookupEntry_append_single]
      by_cases hr : r = v.ref
      · have hnone : lookupEntry db.dictionary r = none :=
          hr ▸ lookupEntry_eq_none_of_not_contains _ _ (hr ▸ hc)
        rw [hnone, if_pos hr]
        rfl
      · rw [if_neg hr]
        cases lookupEntry db.dictionary r <;> rfl

/-- The source ingestion step overwrites exactly the ingested reference's
source text. -/
theorem sourceOf_ingestSource (db : JsonDatabase) (v : Verse) (r : String) :
    sourceOf (ingestSourceVerse db v) r =
      if r = v.ref then some v.text else sourceOf db r := by
  unfold ingestSourceVerse
  dsimp only
  split
  · rename_i hc
    simp only [sourceOf]
    rw [lookupEntry_updateEntry]
    by_cases hr : r = v.ref
    · rw [if_pos hr, if_pos hr]
      obtain ⟨e, he⟩ := Option.isSome_iff_exists.mp ((containsRef_iff _ _).mp hc)
      rw [hr, he]
      rfl
    · rw [if_neg hr, if_neg hr]
  · rename_i hc
    simp only [sourceOf]
    rw [lookupEntry_updateEntry]
    by_cases hr : r = v.ref
    · have hnone : lookupEntry db.dictionary v.ref = none :=
        lookupEntry_eq_none_of_not_contains _ _ (by simpa using hc)
      rw [if_pos hr, if_pos hr, lookupEntry_append_single, hr, hnone, if_pos rfl]
      rfl
    · rw [if_neg hr, if_neg hr, lookupEntry_append_single, if_neg hr]
      cases lookupEntry db.dictionary r <;> rfl

/-- Folding the source ingestion loop: the stored source text of `r` is the
text of the LAST source record with reference `r` (Python's repeated
`dict.update` keeps the final write), falling back to the pre-fold value. -/
theorem sourceOf_foldSource (sf : List Verse) (db : JsonDatabase) (r : String) :
    sourceOf (sf.foldl ingestSourceVerse db) r =
      ((sf.reverse.find? (fun v => decide (v.ref = r))).map Verse.text).or
        (sourceOf db r) := by
  induction sf generalizing db with
  | nil => simp
  | cons v vs ih =>
    simp only [List.foldl_cons, List.reverse_cons, List.find?_append]
    rw [ih]
    cases hvs : vs.reverse.find? (fun v => decide (v.ref = r)) with
    | some t => simp [hvs]
    | none =>
      simp only [hvs, List.find?]
      by_cases hr : v.ref = r
      · rw [sourceOf_ingestSource, if_pos hr.symm]
        simp [hr]
      · rw [sourceOf_ingestSource, if_neg (fun h => hr h.symm)]
        simp [hr]

/-- Generic key lookup over an association list (shared shape of the
dictionary lookup and the `target_references.index` lookup). -/
def lookupKey {β : Type} (d : List (String × β)) (r : String) : Option β :=
  (d.find? (fun p => p.1 = r)).map (fun p => p.2)

theorem lookupKey_append_single {β : Type} (d : List (String × β)) (k : String)
    (e : β) (r : String) :
    lookupKey (d ++ [(k, e)]) r = (lookupKey d r).or (if r = k then some e else none) := by
  unfold lookupKey
  rw [List.find?_append]
  cases hfind : d.find? (fun p => p.1 = r) with
  | some p => rfl
  | none =>
    by_cases hk : r = k
    · subst hk
      simp [List.find?]
    · have hkr : ¬ k = r := fun h => hk h.symm
      simp [List.find?, hk, hkr]

theorem lookupZipTarget_eq_lookupKey (db : JsonDatabase) (r : String) :
    lookupZipTarget db r = lookupKey (db.target_references.zip db.target_texts) r := rfl

/-- First target text the ingestion loop stores for reference `r`, given
whether `r` already had a dictionary slot when the loop reached this list:
a record on a fresh reference with a text shorter than 4 characters is
skipped; any other record is appended, and the earliest appended one is
what `target_references.index` finds. -/
def firstStoredTargetText : List Verse → Bool → String → Option String
  | [], _, _ => none
  | v :: vs, present, r =>
    if v.ref = r then
      if present then some v.text
      else if v.text.length < 4 then firstStoredTargetText vs present r
      else some v.text
    else firstStoredTargetText vs present r

/-- The target ingestion step keeps the target lists aligned. -/
theorem ingestTarget_len (db : JsonDatabase) (v : Verse)
    (hlen : db.target_references.length = db.target_texts.length) :
    (ingestTargetVerse db v).target_references.length =
      (ingestTargetVerse db v).target_texts.length := by
  unfold ingestTargetVerse
  split
  · simp [hlen]
  · split
    · exact hlen
    · simp [hlen]

/-- The target pairs after one ingestion step. -/
theorem ingestTarget_pairs (db : JsonDatabase) (v : Verse)
    (hlen : db.target_references.length = db.target_texts.length) :
    (ingestTargetVerse db v).target_references.zip
        (ingestTargetVerse db v).target_texts =
      if containsRef db.dictionary v.ref = true then
        db.target_references.zip db.target_texts ++ [(v.ref, v.text)]
      else if v.text.length < 4 then db.target_references.zip db.target_texts
      else db.target_references.zip db.target_texts ++ [(v.ref, v.text)] := by
  unfold ingestTargetVerse
  split
  · dsimp only
    rw [List.zip_append hlen]
    simp
  · split
    · rfl
    · dsimp only
      rw [List.zip_append hlen]
      simp

/-- In-place updates do not change the key list. -/
theorem updateEntry_keys (d : List (String × Entry)) (k : String) (f : Entry → Entry) :
    (updateEntry d k f).map Prod.fst = d.map Prod.fst := by
  unfold updateEntry
  rw [List.map_map]
  apply List.map_congr_left
  intro p _
  by_cases h : p.1 = k <;> simp [h]

theorem containsRef_updateEntry_eq (d : List (String × Entry)) (k : String)
    (f : Entry → Entry) (r : String) :
    containsRef (updateEntry d k f) r = containsRef d r := by
  unfold containsRef
  have hkeys : ∀ e : List (String × Entry),
      e.any (fun p => p.1 = r) = (e.map Prod.fst).any (fun s => s = r) := by
    intro e
    induction e with
    | nil => rfl
    | cons p ps ih => simp [List.any_cons, ih]
  rw [hkeys, hkeys, updateEntry_keys]

/-- Dictionary membership after one target ingestion step. -/
theorem containsRef_ingestTarget_eq (db : JsonDatabase) (v : Verse) (r : String) :
    containsRef (ingestTargetVerse db v).dictionary r =
      if containsRef db.dictionary v.ref = true then containsRef db.dictionary r
      else if v.text.length < 4 then containsRef db.dictionary r
      else (containsRef db.dictionary r || decide (v.ref = r)) := by
  unfold ingestTargetVerse
  split
  · dsimp only
    exact containsRef_updateEntry_eq _ _ _ _
  · split
    · rfl
    · dsimp only
      simp [containsRef, List.any_append]

/-- `lookupZipTarget` after one target ingestion step. -/
theorem lookupZipTarget_ingestTarget (db : JsonDatabase) (v : Verse) (r : String)
    (hlen : db.target_references.length = db.target_texts.length) :
    lookupZipTarget (ingestTargetVerse db v) r =
      if containsRef db.dictionary v.ref = true then
        (lookupZipTarget db r).or (if r = v.ref then some v.text else none)
      else if v.text.length < 4 then lookupZipTarget db r
      else (lookupZipTarget db r).or (if r = v.ref then some v.text else none) := by
  rw [lookupZipTarget_eq_lookupKey, ingestTarget_pairs db v hlen]
  split
  · rw [lookupKey_append_single]
    rfl
  · split
    · rfl
    · rw [lookupKey_append_single]
      rfl

/-- The "once stored, queryable" invariant is preserved by the target
ingestion step: a reference has a dictionary slot iff it has a stored
pair in the collection lists. -/
theorem hiff_ingestTarget (db : JsonDatabase) (v : Verse)
    (hlen : db.target_references.length = db.target_texts.length)
    (hiff : ∀ r', containsRef db.dictionary r' = true ↔
      (lookupZipTarget db r').isSome = true) :
    ∀ r, containsRef (ingestTargetVerse db v).dictionary r = true ↔
      (lookupZipTarget (ingestTargetVerse db v) r).isSome = true := by
  intro r
  rw [containsRef_ingestTarget_eq, lookupZipTarget_ingestTarget db v r hlen]
  by_cases hc : containsRef db.dictionary v.ref = true
  · rw [if_pos hc, if_pos hc]
    by_cases hr : r = v.ref
    · subst hr
      obtain ⟨t, ht⟩ := Option.isSome_iff_exists.mp ((hiff v.ref).mp hc)
      simp [hc, ht]
    · rw [if_neg hr]
      simp [hiff r]
  · rw [if_neg hc, if_neg hc]
    by_cases h4 : v.text.length < 4
    · rw [if_pos h4, if_pos h4]
      exact hiff r
    · rw [if_neg h4, if_neg h4]
      by_cases hr : r = v.ref
      · subst hr
        simp [hiff v.ref]
      · have hvr : ¬ v.ref = r := fun h => hr h.symm
        rw [if_neg hr]
        simp [hvr, hiff r]

/-- Folding the target ingestion loop: the stored pair found for `r` is the
FIRST accepted record with reference `r` (acceptance requires either a
pre-existing slot or a text of length ≥ 4). -/
theorem lookupZipTarget_foldTarget (tf : List Verse) (db : JsonDatabase) (r : String)
    (hlen : db.target_references.length = db.target_texts.length)
    (hiff : ∀ r', containsRef db.dictionary r' = true ↔
      (lookupZipTarget db r').isSome = true) :
    lookupZipTarget (tf.foldl ingestTargetVerse db) r =
      (lookupZipTarget db r).or
        (firstStoredTargetText tf (containsRef db.dictionary r) r) := by
  induction tf generalizing db with
  | nil =>
    cases h : lookupZipTarget db r <;> simp [firstStoredTargetText, h]
  | cons v vs ih =>
    rw [List.foldl_cons,
      ih (ingestTargetVerse db v) (ingestTarget_len db v hlen)
        (hiff_ingestTarget db v hlen hiff),
      lookupZipTarget_ingestTarget db v r hlen, containsRef_ingestTarget_eq db v r]
    by_cases hc : containsRef db.dictionary v.ref = true
    · rw [if_pos hc, if_pos hc]
      by_cases hr : v.ref = r
      · have hcr : containsRef db.dictionary r = true := hr ▸ hc
        obtain ⟨t, ht⟩ := Option.isSome_iff_exists.mp ((hiff r).mp hcr)
        rw [ht, hcr]
        simp
      · have hrv : ¬ r = v.ref := fun h => hr h.symm
        rw [if_neg hrv]
        simp only [firstStoredTargetText, if_neg hr, Option.or_none]
    · rw [if_neg hc, if_neg hc]
      by_cases h4 : v.text.length < 4
      · rw [if_pos h4, if_pos h4]
        by_cases hr : v.ref = r
        · have hcr : containsRef db.dictionary r = false := by
            rw [← hr]
            exact Bool.eq_false_iff.mpr hc
          rw [hcr]
          simp [firstStoredTargetText, hr, h4]
        · simp only [firstStoredTargetText, if_neg hr]
      · rw [if_neg h4, if_neg h4]
        by_cases hr : v.ref = r
        · have hcr : containsRef db.dictionary r = false := by
            rw [← hr]
            exact Bool.eq_false_iff.mpr hc
          have hnone : lookupZipTarget db r = none := by
            cases hz : lookupZipTarget db r with
            | none => rfl
            | some t =>
              have := (hiff r).mpr (by simp [hz])
              rw [hcr] at this
              cases this
          rw [hcr, hnone, if_pos hr.symm]
          simp [firstStoredTargetText, hr, h4]
        · have hrv : ¬ r = v.ref := fun h => hr h.symm
          rw [if_neg hrv]
          simp [firstStoredTargetText, hr]

/-- Starting from an empty dictionary, the first stored target text for `r`
is the text of the first record with reference `r` whose text has length at
least 4 (shorter ones are skipped while the reference is fresh). -/
theorem firstStored_false_eq_find (tf : List Verse) (r : String) :
    firstStoredTargetText tf false r =
      (tf.find? (fun v => decide (v.ref = r ∧ 4 ≤ v.text.length))).map Verse.text := by
  induction tf with
  | nil => rfl
  | cons v vs ih =>
    simp only [firstStoredTargetText, List.find?]
    by_cases hr : v.ref = r
    · by_cases h4 : v.text.length < 4
      · have hno : ¬ 4 ≤ v.text.length := by omega
        simp [hr, h4, hno, ih]
      · have hyes : v.ref = r ∧ 4 ≤ v.text.length := ⟨hr, by omega⟩
        simp [hr, h4, hyes]
    · have hno : ¬ (v.ref = r ∧ 4 ≤ v.text.length) := fun h => hr h.1
      simp [hr, hno, ih]

/-- The source ingestion loop does not touch the target pairs. -/
theorem lookupZipTarget_foldSource (sf : List Verse) (db : JsonDatabase) (r : String) :
    lookupZipTarget (sf.foldl ingestSourceVerse db) r = lookupZipTarget db r := by
  induction sf generalizing db with
  | nil => rfl
  | cons v vs ih =>
    rw [List.foldl_cons, ih]
    unfold ingestSourceVerse lookupZipTarget
    dsimp only
    split <;> rfl

/-- The target ingestion loop never touches source slots. -/
theorem sourceOf_foldTarget (tf : List Verse) (db : JsonDatabase) (r : String) :
    sourceOf (tf.foldl ingestTargetVerse db) r = sourceOf db r := by
  induction tf generalizing db with
  | nil => rfl
  | cons v vs ih => rw [List.foldl_cons, ih, sourceOf_ingestTarget]

theorem not_contains_not_mem_keys (d : List (String × Entry)) (k : String)
    (h : ¬ containsRef d k = true) : k ∉ d.map Prod.fst := by
  intro hmem
  obtain ⟨p, hp, hpk⟩ := List.mem_map.mp hmem
  exact h (by simp only [containsRef, List.any_eq_true]; exact ⟨p, hp, by simp [hpk]⟩)

/-- The dictionary's key list stays duplicate-free through construction:
re-ingestion updates a slot in place, only fresh references append. -/
theorem create_database_keys_nodup (tf sf : List Verse) (fs ft : Bool) :
    ((create_database tf sf fs ft).dictionary.map Prod.fst).Nodup := by
  unfold create_database
  dsimp only
  have step2 : ∀ (db : JsonDatabase) (v : Verse),
      (db.dictionary.map Prod.fst).Nodup →
      ((ingestSourceVerse db v).dictionary.map Prod.fst).Nodup := by
    intro db v h
    unfold ingestSourceVerse
    dsimp only
    split
    · rw [updateEntry_keys]
      exact h
    · rename_i hc
      rw [updateEntry_keys]
      simp only [List.map_append, List.map_cons, List.map_nil]
      rw [List.nodup_append]
      refine ⟨h, List.nodup_singleton _, ?_⟩
      intro a ha hb
      obtain rfl : a = v.ref := by simpa using hb
      exact not_contains_not_mem_keys _ _ hc ha
  have step1 : ∀ (db : JsonDatabase) (v : Verse),
      (db.dictionary.map Prod.fst).Nodup →
      ((ingestTargetVerse db v).dictionary.map Prod.fst).Nodup := by
    intro db v h
    unfold ingestTargetVerse
    split
    · dsimp only
      rw [updateEntry_keys]
      exact h
    · split
      · exact h
      · rename_i hc _
        dsimp only
        simp only [List.map_append, List.map_cons, List.map_nil]
        rw [List.nodup_append]
        refine ⟨h, List.nodup_singleton _, ?_⟩
        intro a ha hb
        obtain rfl : a = v.ref := by simpa using hb
        exact not_contains_not_mem_keys _ _ hc ha
  refine foldl_preserve (P := fun db : JsonDatabase =>
    (db.dictionary.map Prod.fst).Nodup) _ sf _ ?_ step2
  refine foldl_preserve (P := fun db : JsonDatabase =>
    (db.dictionary.map Prod.fst).Nodup) _ tf _ ?_ step1
  exact List.nodup_nil

/-- One ingestion step never shrinks the dictionary (distinct-reference
count never decreases). -/
theorem dict_length_mono (db : JsonDatabase) (v : Verse) :
    db.dictionary.length ≤ (ingestTargetVerse db v).dictionary.length ∧
    db.dictionary.length ≤ (ingestSourceVerse db v).dictionary.length := by
  constructor
  · unfold ingestTargetVerse
    split
    · simp [updateEntry]
    · split
      · exact Nat.le_refl _
      · simp
  · unfold ingestSourceVerse
    dsimp only
    split
    · simp [updateEntry]
    · simp [updateEntry]

/-- The empty database satisfies the alignment/queryability invariant. -/
theorem emptyDatabase_hiff : ∀ r, containsRef emptyDatabase.dictionary r = true ↔
    (lookupZipTarget emptyDatabase r).isSome = true := by
  intro r
  constructor <;> intro h <;> exact absurd h (by simp [emptyDatabase, containsRef,
    lookupZipTarget])

/-- What `get_text` returns on a constructed database, exactly. -/
theorem get_text_create_database (tf sf : List Verse) (fs ft : Bool) (r : String) :
    (create_database tf sf fs ft).get_text r "source" =
      (((sf.reverse.find? (fun v => decide (v.ref = r))).map Verse.text).getD "") ∧
    (create_database tf sf fs ft).get_text r "target" =
      (((tf.find? (fun v => decide (v.ref = r ∧ 4 ≤ v.text.length))).map
        Verse.text).getD "") := by
  constructor
  · rw [get_text_source_eq]
    have hflags : sourceOf (create_database tf sf fs ft) r =
        sourceOf (sf.foldl ingestSourceVerse
          (tf.foldl ingestTargetVerse emptyDatabase)) r := rfl
    rw [hflags, sourceOf_foldSource, sourceOf_foldTarget]
    have hempty : sourceOf emptyDatabase r = none := rfl
    rw [hempty]
    cases sf.reverse.find? (fun v => decide (v.ref = r)) <;> rfl
  · rw [get_text_target_eq]
    have hflags : lookupZipTarget (create_database tf sf fs ft) r =
        lookupZipTarget (sf.foldl ingestSourceVerse
          (tf.foldl ingestTargetVerse emptyDatabase)) r := rfl
    rw [hflags, lookupZipTarget_foldSource,
      lookupZipTarget_foldTarget tf emptyDatabase r rfl emptyDatabase_hiff]
    have h0 : lookupZipTarget emptyDatabase r = none := rfl
    have hc0 : containsRef emptyDatabase.dictionary r = false := rfl
    rw [h0, hc0, firstStored_false_eq_find]
    cases tf.find? (fun v => decide (v.ref = r ∧ 4 ≤ v.text.length)) <;> rfl

/-! ### Claim C4 -/

/-- The two-record database re-ingesting reference `"r"` on the target
side. -/
def c4db : JsonDatabase :=
  create_database
    [{ ref := "r", text := "aaaa", uri := "u1" }, { ref := "r", text := "bbbb", uri := "u2" }]
    [] false false

/-- **C4, counterexample.**  Re-ingesting reference `"r"` overwrites the
dictionary slot with the last text `"bbbb"`, but ALSO appends a duplicate
to `target_references`/`target_texts`, and `get_text` goes through
`target_references.index(ref)` — the FIRST occurrence — so it returns the
first-ingested `"aaaa"`, not the last-ingested text. -/
theorem c4_counterexample :
    (lookupEntry c4db.dictionary "r").map Entry.target = some (some "bbbb") ∧
    c4db.target_texts = ["aaaa", "bbbb"] ∧
    c4db.get_text "r" "target" = "aaaa" ∧ "aaaa" ≠ "bbbb" :=
  ⟨rfl, rfl, rfl, by decide⟩

/-- **C4, amended.**  For every constructed database:
`getText(r, "source")` returns exactly the LAST source text ingested for
`r`; `getText(r, "target")` returns the FIRST target text of length ≥ 4
ingested for `r` (not the last — re-ingestion updates the dictionary slot
in place but appends a duplicate to the collection lists, and the lookup
finds the first); the dictionary itself never holds duplicate references,
and no ingestion step ever shrinks it, so the count of distinct references
never decreases. -/
theorem c4_amended (tf sf : List Verse) (fs ft : Bool) (r : String) :
    ((create_database tf sf fs ft).get_text r "source" =
      (((sf.reverse.find? (fun v => decide (v.ref = r))).map Verse.text).getD "")) ∧
    ((create_database tf sf fs ft).get_text r "target" =
      (((tf.find? (fun v => decide (v.ref = r ∧ 4 ≤ v.text.length))).map
        Verse.text).getD "")) ∧
    ((create_database tf sf fs ft).dictionary.map Prod.fst).Nodup ∧
    (∀ (db : JsonDatabase) (v : Verse),
      db.dictionary.length ≤ (ingestTargetVerse db v).dictionary.length ∧
      db.dictionary.length ≤ (ingestSourceVerse db v).dictionary.length) :=
  ⟨(get_text_create_database tf sf fs ft r).1,
   (get_text_create_database tf sf fs ft r).2,
   create_database_keys_nodup tf sf fs ft,
   dict_length_mono⟩

/-! ### Claim C9 -/

/-- Python's `str.strip()`: drop leading and trailing whitespace. -/
def pyStrip (s : String) : String :=
  ⟨((s.data.dropWhile Char.isWhitespace).reverse.dropWhile Char.isWhitespace).reverse⟩

/-- Modelled from the source (json_database.py:702-731): the regex scan of
a `.bible` file is the third-party `re.findall`; the embedding receives
the matched `(ref, text)` pairs and keeps the post-match processing —
strip the text, silently skip entries whose stripped text is shorter than
4 characters. -/
def extract_from_bible_file (path : String) (ms : List (String × String)) :
    List Verse :=
  ms.filterMap (fun m =>
    let text := pyStrip m.2
    if text.length < 4 then none
    else some { ref := m.1, text := text, uri := path })

/-- **C9.**  (1) A target record whose reference is fresh and whose text is
shorter than 4 characters is silently dropped: the ingestion step returns
the state unchanged, so it reaches neither the passage table nor the
target collection index.  (2) On a state that never stored the reference,
`getText` returns `""` for both sides.  (3) The same under-4-character
filter is applied when parsing `.bible` records: every parsed verse has a
text of length ≥ 4. -/
theorem c9_short_target_dropped :
    (∀ (db : JsonDatabase) (v : Verse), containsRef db.dictionary v.ref = false →
      v.text.length < 4 → ingestTargetVerse db v = db) ∧
    (∀ (db : JsonDatabase) (r : String),
      (db.target_references.zip db.target_texts).find? (fun p => p.1 = r) = none →
      lookupEntry db.dictionary r = none →
      db.get_text r "target" = "" ∧ db.get_text r "source" = "") ∧
    (∀ (path : String) (ms : List (String × String)) (v : Verse),
      v ∈ extract_from_bible_file path ms → 4 ≤ v.text.length) := by
  refine ⟨?_, ?_, ?_⟩
  · intro db v hc h4
    unfold ingestTargetVerse
    rw [if_neg (by simp [hc]), if_pos h4]
  · intro db r hz hd
    constructor
    · rw [get_text_target_eq, lookupZipTarget_eq_lookupKey]
      unfold lookupKey
      rw [hz]
      rfl
    · rw [get_text_source_eq]
      unfold sourceOf
      rw [hd]
      rfl
  · intro path ms v hv
    obtain ⟨m, hm, hsome⟩ := List.mem_filterMap.mp hv
    dsimp only at hsome
    split at hsome
    · cases hsome
    · rename_i hlen
      cases hsome
      show 4 ≤ (pyStrip m.2).length
      omega

/-- Witness for `c9_short_target_dropped` at concrete inputs: a fresh
3-character target record is a no-op on the empty database, whose
`getText` then returns `""`; a parsed `.bible` match list keeps only the
long-enough verse. -/
theorem c9_witness :
    ingestTargetVerse emptyDatabase { ref := "s", text := "ab", uri := "u" } =
      emptyDatabase ∧
    emptyDatabase.get_text "s" "target" = "" ∧
    extract_from_bible_file "p" [("s", " ab "), ("t", "abcd")] =
      [{ ref := "t", text := "abcd", uri := "p" }] :=
  ⟨(c9_short_target_dropped.1 emptyDatabase _ rfl (by decide)),
   ((c9_short_target_dropped.2.1 emptyDatabase "s" rfl rfl).1),
   by decide⟩

/-! ## `ImprovedStatisticalGlosser` (improved_statistical_glosser.py)

Counters (`defaultdict(int)`) are total functions that are `0` off the
written keys; the iteration order of `target_counts.keys()` /
`source_counts.keys()` is kept as explicit first-write-ordered vocabulary
lists.  (Python's `defaultdict` also silently adds zero-count keys on
reads; such keys never pass the `score > 0` filters, so they are
unobservable in every theorem below and are not tracked.)  Scores use `ℝ`
because `math.log` enters the formula. -/

/-- `\w` of Python's `re` for the ASCII texts in scope: letters, digits,
underscore. -/
def isWordChar (c : Char) : Bool := c.isAlphanum || c = '_'

/-- Accumulator pass collecting maximal runs of word characters; `acc`
holds the current run reversed. -/
def wordRunsAux : List Char → List Char → List (List Char)
  | [], acc => if acc.isEmpty then [] else [acc.reverse]
  | c :: cs, acc =>
    if isWordChar c then wordRunsAux cs (c :: acc)
    else if acc.isEmpty then wordRunsAux cs []
    else acc.reverse :: wordRunsAux cs []

/-- Maximal runs of word characters (the `re.findall(r'\w+', ...)` scan). -/
def wordRuns (l : List Char) : List (List Char) := wordRunsAux l []

/-- `tokenize_raw` (improved_statistical_glosser.py:117-119):
`re.findall(r'\w+', sentence.lower())`. -/
def tokenize_raw (sentence : String) : List String :=
  (wordRuns (sentence.data.map Char.toLower)).map (fun cs => String.mk cs)

/-- `tokenize` (improved_statistical_glosser.py:112-115) given the
glosser's current stop-word set. -/
def tokenizeFiltered (stop_words : List String) (sentence : String) : List String :=
  (tokenize_raw sentence).filter (fun token => ¬ stop_words.contains token)

/-- One `Counter`/`dict` bump: insertion-ordered key list. -/
def bumpCount (acc : List (String × Nat)) (w : String) : List (String × Nat) :=
  if acc.any (fun p => p.1 = w) then
    acc.map (fun p => if p.1 = w then (p.1, p.2 + 1) else p)
  else acc ++ [(w, 1)]

/-- `Counter(word for sentence in sentences for word in tokenize_raw(sentence))`. -/
def countTokens (sentences : List String) : List (String × Nat) :=
  sentences.foldl (fun acc s => (tokenize_raw s).foldl bumpCount acc) []

/-- Stable insertion keeping the list sorted by descending count. -/
def insertDescBy (count : String → Nat) (w : String) : List String → List String
  | [] => [w]
  | x :: xs => if count w ≤ count x then x :: insertDescBy count w xs
               else w :: x :: xs

/-- `calculate_stop_words` (improved_statistical_glosser.py:50-61): words
whose occurrence count exceeds 10% of the sentence count (`count /
total_sentences > 0.1`, exact rational comparison `10·count > total`),
sorted by descending count and truncated to `max_stop_words`.  Python
collects the candidates into a `set` whose iteration order is unspecified;
the embedding keeps first-occurrence order — every state appearing in a
theorem below has no count ties at the truncation boundary (or at most 75
candidates), so the resulting SET is the same. -/
def calculate_stop_words (sentences : List String) (max_stop_words : Nat) :
    List String :=
  let word_counts := countTokens sentences
  let total_sentences := sentences.length
  let candidates := (word_counts.filter
    (fun p => total_sentences < 10 * p.2)).map Prod.fst
  let count := fun w => ((word_counts.find? (fun p => p.1 = w)).map Prod.snd).getD 0
  (candidates.foldl (fun acc w => insertDescBy count w acc) []).take max_stop_words

structure ImprovedStatisticalGlosser where
  co_occurrences : String → String → Nat
  source_counts : String → Nat
  target_counts : String → Nat
  source_doc_freq : String → Nat
  target_doc_freq : String → Nat
  source_vocab : List String
  target_vocab : List String
  total_docs : Nat
  stop_words : List String
  known_glosses : List (String × List String)

/-- `__init__` (improved_statistical_glosser.py:9-17). -/
def glosserInit : ImprovedStatisticalGlosser where
  co_occurrences := fun _ _ => 0
  source_counts := fun _ => 0
  target_counts := fun _ => 0
  source_doc_freq := fun _ => 0
  target_doc_freq := fun _ => 0
  source_vocab := []
  target_vocab := []
  total_docs := 0
  stop_words := []
  known_glosses := []

/-- `f[w] += 1` on a `defaultdict(int)`. -/
def bumpFn (f : String → Nat) (w : String) : String → Nat :=
  fun a => if a = w then f a + 1 else f a

/-- `co[s][t] += 1`. -/
def bumpFn2 (f : String → String → Nat) (s t : String) : String → String → Nat :=
  fun a b => if a = s ∧ b = t then f a b + 1 else f a b

/-- First-write key registration of a `defaultdict`. -/
def insertKey (l : List String) (w : String) : List String :=
  if l.contains w then l else l ++ [w]

/-- Innermost loop of `train`: `for t_token in target_tokens:
co_occurrences[s_token][t_token] += 1`. -/
def coStep (s : String) (g : ImprovedStatisticalGlosser) (t : String) :
    ImprovedStatisticalGlosser :=
  { g with co_occurrences := bumpFn2 g.co_occurrences s t }

/-- Body of `for s_token in source_tokens`: the co-occurrence loop then
`source_counts[s_token] += 1`. -/
def srcTokenStep (target_tokens : List String) (g : ImprovedStatisticalGlosser)
    (s : String) : ImprovedStatisticalGlosser :=
  let g := target_tokens.foldl (coStep s) g
  { g with source_counts := bumpFn g.source_counts s,
           source_vocab := insertKey g.source_vocab s }

/-- `for t_token in target_tokens: target_counts[t_token] += 1`. -/
def tgtTokenStep (g : ImprovedStatisticalGlosser) (t : String) :
    ImprovedStatisticalGlosser :=
  { g with target_counts := bumpFn g.target_counts t,
           target_vocab := insertKey g.target_vocab t }

/-- `for s_token in source_set: source_doc_freq[s_token] += 1`. -/
def srcDocStep (g : ImprovedStatisticalGlosser) (s : String) :
    ImprovedStatisticalGlosser :=
  { g with source_doc_freq := bumpFn g.source_doc_freq s }

def tgtDocStep (g : ImprovedStatisticalGlosser) (t : String) :
    ImprovedStatisticalGlosser :=
  { g with target_doc_freq := bumpFn g.target_doc_freq t }

/-- One iteration of the training loop over a sentence pair
(improved_statistical_glosser.py:30-48).  Python iterates `source_set` /
`target_set` in set order; the increments commute, so the embedding uses
first-occurrence order (`dedup`). -/
def trainPair (g : ImprovedStatisticalGlosser) (p : String × String) :
    ImprovedStatisticalGlosser :=
  let source_tokens := tokenizeFiltered g.stop_words p.1
  let target_tokens := tokenizeFiltered g.stop_words p.2
  let source_set := source_tokens.dedup
  let target_set := target_tokens.dedup
  let g := source_tokens.foldl (srcTokenStep target_tokens) g
  let g := target_tokens.foldl tgtTokenStep g
  let g := source_set.foldl srcDocStep g
  let g := target_set.foldl tgtDocStep g
  g

/-- `train` (improved_statistical_glosser.py:25-48): replaces the stop-word
set and `total_docs`, then ACCUMULATES counts pair by pair — none of the
count tables is reset. -/
def ImprovedStatisticalGlosser.train (g : ImprovedStatisticalGlosser)
    (source_sentences target_sentences : List String) : ImprovedStatisticalGlosser :=
  let g := { g with
    stop_words := calculate_stop_words (source_sentences ++ target_sentences) 75 }
  let g := { g with total_docs := source_sentences.length }
  (source_sentences.zip target_sentences).foldl trainPair g

/-- `add_known_glosses` (improved_statistical_glosser.py:63-64). -/
def ImprovedStatisticalGlosser.add_known_glosses (g : ImprovedStatisticalGlosser)
    (known : List (String × List String)) : ImprovedStatisticalGlosser :=
  { g with known_glosses := known }

/-! ### Claim C2 — what one training fold adds to each counter -/

/-- A field untouched by every step is untouched by the fold. -/
theorem foldl_field_eq {α β γ : Type} (f : β → γ) (step : β → α → β) (l : List α)
    (g : β) (h : ∀ b a, f (step b a) = f b) : f (l.foldl step g) = f g := by
  induction l generalizing g with
  | nil => rfl
  | cons x xs ih => rw [List.foldl_cons, ih, h]

theorem coStep_fold_co (s a b : String) :
    ∀ (tt : List String) (g : ImprovedStatisticalGlosser),
    (tt.foldl (coStep s) g).co_occurrences a b =
      g.co_occurrences a b + (if a = s then tt.count b else 0)
  | [], g => by simp
  | t :: ts, g => by
    rw [List.foldl_cons, coStep_fold_co s a b ts]
    show bumpFn2 g.co_occurrences s t a b + _ = _
    unfold bumpFn2
    by_cases has : a = s
    · by_cases hbt : b = t
      · have : (b == t) = true := by simp [hbt]
        simp [has, hbt, List.count_cons, this]
        omega
      · have : (b == t) = false := by simp [hbt]
        simp [has, hbt, List.count_cons, this]
    · simp [has]

theorem coStep_fold_sc (s : String) (tt : List String)
    (g : ImprovedStatisticalGlosser) :
    (tt.foldl (coStep s) g).source_counts = g.source_counts := by
  apply foldl_field_eq
  intro b a
  rfl

theorem srcTokenStep_fold_co (tt : List String) (a b : String) :
    ∀ (st : List String) (g : ImprovedStatisticalGlosser),
    (st.foldl (srcTokenStep tt) g).co_occurrences a b =
      g.co_occurrences a b + st.count a * tt.count b
  | [], g => by simp
  | s :: ss, g => by
    rw [List.foldl_cons, srcTokenStep_fold_co tt a b ss]
    have hco : (srcTokenStep tt g s).co_occurrences a b =
        g.co_occurrences a b + (if a = s then tt.count b else 0) := by
      show (tt.foldl (coStep s) g).co_occurrences a b = _
      exact coStep_fold_co s a b tt g
    rw [hco]
    by_cases has : a = s
    · subst has
      simp [List.count_cons]
      ring
    · have : (a == s) = false := by simp [has]
      simp [has, List.count_cons, this]

theorem srcTokenStep_fold_sc (tt : List String) (a : String) :
    ∀ (st : List String) (g : ImprovedStatisticalGlosser),
    (st.foldl (srcTokenStep tt) g).source_counts a =
      g.source_counts a + st.count a
  | [], g => by simp
  | s :: ss, g => by
    rw [List.foldl_cons, srcTokenStep_fold_sc tt a ss]
    have hsc : (srcTokenStep tt g s).source_counts a = bumpFn g.source_counts s a := by
      show bumpFn (tt.foldl (coStep s) g).source_counts s a = _
      rw [coStep_fold_sc]
    rw [hsc]
    unfold bumpFn
    by_cases has : a = s
    · have : (a == s) = true := by simp [has]
      simp [has, List.count_cons, this]
      omega
    · have : (a == s) = false := by simp [has]
      simp [has, List.count_cons, this]

theorem srcTokenStep_fold_rest (tt st : List String)
    (g : ImprovedStatisticalGlosser) :
    (st.foldl (srcTokenStep tt) g).target_counts = g.target_counts ∧
    (st.foldl (srcTokenStep tt) g).source_doc_freq = g.source_doc_freq ∧
    (st.foldl (srcTokenStep tt) g).target_doc_freq = g.target_doc_freq ∧
    (st.foldl (srcTokenStep tt) g).stop_words = g.stop_words ∧
    (st.foldl (srcTokenStep tt) g).total_docs = g.total_docs ∧
    (st.foldl (srcTokenStep tt) g).known_glosses = g.known_glosses := by
  refine ⟨?_, ?_, ?_, ?_, ?_, ?_⟩
  · apply foldl_field_eq
    intro b a
    show (tt.foldl (coStep a) b).target_counts = b.target_counts
    apply foldl_field_eq
    intro c d
    rfl
  · apply foldl_field_eq
    intro b a
    show (tt.foldl (coStep a) b).source_doc_freq = b.source_doc_freq
    apply foldl_field_eq
    intro c d
    rfl
  · apply foldl_field_eq
    intro b a
    show (tt.foldl (coStep a) b).target_doc_freq = b.target_doc_freq
    apply foldl_field_eq
    intro c d
    rfl
  · apply foldl_field_eq
    intro b a
    show (tt.foldl (coStep a) b).stop_words = b.stop_words
    apply foldl_field_eq
    intro c d
    rfl
  · apply foldl_field_eq
    intro b a
    show (tt.foldl (coStep a) b).total_docs = b.total_docs
    apply foldl_field_eq
    intro c d
    rfl
  · apply foldl_field_eq
    intro b a
    show (tt.foldl (coStep a) b).known_glosses = b.known_glosses
    apply foldl_field_eq
    intro c d
    rfl

theorem tgtTokenStep_fold_tc (a : String) :
    ∀ (tt : List String) (g : ImprovedStatisticalGlosser),
    (tt.foldl tgtTokenStep g).target_counts a = g.target_counts a + tt.count a
  | [], g => by simp
  | t :: ts, g => by
    rw [List.foldl_cons, tgtTokenStep_fold_tc a ts]
    show bumpFn g.target_counts t a + _ = _
    unfold bumpFn
    by_cases hat : a = t
    · have : (a == t) = true := by simp [hat]
      simp [hat, List.count_cons, this]
      omega
    · have : (a == t) = false := by simp [hat]
      simp [hat, List.count_cons, this]

theorem srcDocStep_fold_df (a : String) :
    ∀ (l : List String) (g : ImprovedStatisticalGlosser),
    (l.foldl srcDocStep g).source_doc_freq a = g.source_doc_freq a + l.count a
  | [], g => by simp
  | t :: ts, g => by
    rw [List.foldl_cons, srcDocStep_fold_df a ts]
    show bumpFn g.source_doc_freq t a + _ = _
    unfold bumpFn
    by_cases hat : a = t
    · have : (a == t) = true := by simp [hat]
      simp [hat, List.count_cons, this]
      omega
    · have : (a == t) = false := by simp [hat]
      simp [hat, List.count_cons, this]

theorem tgtDocStep_fold_df (a : String) :
    ∀ (l : List String) (g : ImprovedStatisticalGlosser),
    (l.foldl tgtDocStep g).target_doc_freq a = g.target_doc_freq a + l.count a
  | [], g => by simp
  | t :: ts, g => by
    rw [List.foldl_cons, tgtDocStep_fold_df a ts]
    show bumpFn g.target_doc_freq t a + _ = _
    unfold bumpFn
    by_cases hat : a = t
    · have : (a == t) = true := by simp [hat]
      simp [hat, List.count_cons, this]
      omega
    · have : (a == t) = false := by simp [hat]
      simp [hat, List.count_cons, this]

/-- Per-field closed form of one training iteration: every counter grows by
the counts of the current pair — nothing is reset — while `stop_words`,
`total_docs` and `known_glosses` are untouched. -/
theorem trainPair_fields (g : ImprovedStatisticalGlosser) (p : String × String)
    (a b : String) :
    (trainPair g p).co_occurrences a b = g.co_occurrences a b +
      (tokenizeFiltered g.stop_words p.1).count a *
      (tokenizeFiltered g.stop_words p.2).count b ∧
    (trainPair g p).source_counts a = g.source_counts a +
      (tokenizeFiltered g.stop_words p.1).count a ∧
    (trainPair g p).target_counts b = g.target_counts b +
      (tokenizeFiltered g.stop_words p.2).count b ∧
    (trainPair g p).source_doc_freq a = g.source_doc_freq a +
      (tokenizeFiltered g.stop_words p.1).dedup.count a ∧
    (trainPair g p).target_doc_freq b = g.target_doc_freq b +
      (tokenizeFiltered g.stop_words p.2).dedup.count b ∧
    (trainPair g p).stop_words = g.stop_words ∧
    (trainPair g p).total_docs = g.total_docs ∧
    (trainPair g p).known_glosses = g.known_glosses := by
  unfold trainPair
  have hTDco : ∀ (l : List String) (g' : ImprovedStatisticalGlosser),
      (l.foldl tgtDocStep g').co_occurrences = g'.co_occurrences := by
    intro l g'
    apply foldl_field_eq
    intro x y
    rfl
  have hTDsc : ∀ (l : List String) (g' : ImprovedStatisticalGlosser),
      (l.foldl tgtDocStep g').source_counts = g'.source_counts := by
    intro l g'
    apply foldl_field_eq
    intro x y
    rfl
  have hTDtc : ∀ (l : List String) (g' : ImprovedStatisticalGlosser),
      (l.foldl tgtDocStep g').target_counts = g'.target_counts := by
    intro l g'
    apply foldl_field_eq
    intro x y
    rfl
  have hTDsdf : ∀ (l : List String) (g' : ImprovedStatisticalGlosser),
      (l.foldl tgtDocStep g').source_doc_freq = g'.source_doc_freq := by
    intro l g'
    apply foldl_field_eq
    intro x y
    rfl
  have hTDstop : ∀ (l : List String) (g' : ImprovedStatisticalGlosser),
      (l.foldl tgtDocStep g').stop_words = g'.stop_words := by
    intro l g'
    apply foldl_field_eq
    intro x y
    rfl
  have hTDtotal : ∀ (l : List String) (g' : ImprovedStatisticalGlosser),
      (l.foldl tgtDocStep g').total_docs = g'.total_docs := by
    intro l g'
    apply foldl_field_eq
    intro x y
    rfl
  have hTDknown : ∀ (l : List String) (g' : ImprovedStatisticalGlosser),
      (l.foldl tgtDocStep g').known_glosses = g'.known_glosses := by
    intro l g'
    apply foldl_field_eq
    intro x y
    rfl
  have hSDco : ∀ (l : List String) (g' : ImprovedStatisticalGlosser),
      (l.foldl srcDocStep g').co_occurrences = g'.co_occurrences := by
    intro l g'
    apply foldl_field_eq
    intro x y
    rfl
  have hSDsc : ∀ (l : List String) (g' : ImprovedStatisticalGlosser),
      (l.foldl srcDocStep g').source_counts = g'.source_counts := by
    intro l g'
    apply foldl_field_eq
    intro x y
    rfl
  have hSDtc : ∀ (l : List String) (g' : ImprovedStatisticalGlosser),
      (l.foldl srcDocStep g').target_counts = g'.target_counts := by
    intro l g'
    apply foldl_field_eq
    intro x y
    rfl
  have hSDtdf : ∀ (l : List String) (g' : ImprovedStatisticalGlosser),
      (l.foldl srcDocStep g').target_doc_freq = g'.target_doc_freq := by
    intro l g'
    apply foldl_field_eq
    intro x y
    rfl
  have hSDstop : ∀ (l : List String) (g' : ImprovedStatisticalGlosser),
      (l.foldl srcDocStep g').stop_words = g'.stop_words := by
    intro l g'
    apply foldl_field_eq
    intro x y
    rfl
  have hSDtotal : ∀ (l : List String) (g' : ImprovedStatisticalGlosser),
      (l.foldl srcDocStep g').total_docs = g'.total_docs := by
    intro l g'
    apply foldl_field_eq
    intro x y
    rfl
  have hSDknown : ∀ (l : List String) (g' : ImprovedStatisticalGlosser),
      (l.foldl srcDocStep g').known_glosses = g'.known_glosses := by
    intro l g'
    apply foldl_field_eq
    intro x y
    rfl
  have hTTco : ∀ (l : List String) (g' : ImprovedStatisticalGlosser),
      (l.foldl tgtTokenStep g').co_occurrences = g'.co_occurrences := by
    intro l g'
    apply foldl_field_eq
    intro x y
    rfl
  have hTTsc : ∀ (l : List String) (g' : ImprovedStatisticalGlosser),
      (l.foldl tgtTokenStep g').source_counts = g'.source_counts := by
    intro l g'
    apply foldl_field_eq
    intro x y
    rfl
  have hTTsdf : ∀ (l : List String) (g' : ImprovedStatisticalGlosser),
      (l.foldl tgtTokenStep g').source_doc_freq = g'.source_doc_freq := by
    intro l g'
    apply foldl_field_eq
    intro x y
    rfl
  have hTTtdf : ∀ (l : List String) (g' : ImprovedStatisticalGlosser),
      (l.foldl tgtTokenStep g').target_doc_freq = g'.target_doc_freq := by
    intro l g'
    apply foldl_field_eq
    intro x y
    rfl
  have hTTstop : ∀ (l : List String) (g' : ImprovedStatisticalGlosser),
      (l.foldl tgtTokenStep g').stop_words = g'.stop_words := by
    intro l g'
    apply foldl_field_eq
    intro x y
    rfl
  have hTTtotal : ∀ (l : List String) (g' : ImprovedStatisticalGlosser),
      (l.foldl tgtTokenStep g').total_docs = g'.total_docs := by
    intro l g'
    apply foldl_field_eq
    intro x y
    rfl
  have hTTknown : ∀ (l : List String) (g' : ImprovedStatisticalGlosser),
      (l.foldl tgtTokenStep g').known_glosses = g'.known_glosses := by
    intro l g'
    apply foldl_field_eq
    intro x y
    rfl
  obtain ⟨hSTtc, hSTsdf, hSTtdf, hSTstop, hSTtotal, hSTknown⟩ :=
    srcTokenStep_fold_rest (tokenizeFiltered g.stop_words p.2)
      (tokenizeFiltered g.stop_words p.1) g
  refine ⟨?_, ?_, ?_, ?_, ?_, ?_, ?_, ?_⟩
  · rw [hTDco, hSDco, hTTco, srcTokenStep_fold_co]
  · rw [hTDsc, hSDsc, hTTsc, srcTokenStep_fold_sc]
  · rw [hTDtc, hSDtc, tgtTokenStep_fold_tc, hSTtc]
  · rw [hTDsdf, srcDocStep_fold_df, hTTsdf, hSTsdf]
  · rw [tgtDocStep_fold_df, hSDtdf, hTTtdf, hSTtdf]
  · rw [hTDstop, hSDstop, hTTstop, hSTstop]
  · rw [hTDtotal, hSDtotal, hTTtotal, hSTtotal]
  · rw [hTDknown, hSDknown, hTTknown, hSTknown]

/-- The total increments one pass of the training loop adds to each counter
(purely a function of the input pairs and the stop-word set). -/
def incCo (sw : List String) (ps : List (String × String)) (a b : String) : Nat :=
  (ps.map (fun p => (tokenizeFiltered sw p.1).count a *
    (tokenizeFiltered sw p.2).count b)).sum

def incSC (sw : List String) (ps : List (String × String)) (a : String) : Nat :=
  (ps.map (fun p => (tokenizeFiltered sw p.1).count a)).sum

def incTC (sw : List String) (ps : List (String × String)) (b : String) : Nat :=
  (ps.map (fun p => (tokenizeFiltered sw p.2).count b)).sum

def incSDF (sw : List String) (ps : List (String × String)) (a : String) : Nat :=
  (ps.map (fun p => (tokenizeFiltered sw p.1).dedup.count a)).sum

def incTDF (sw : List String) (ps : List (String × String)) (b : String) : Nat :=
  (ps.map (fun p => (tokenizeFiltered sw p.2).dedup.count b)).sum

/-- The whole training fold adds exactly the pure increments. -/
theorem foldTrain_fields (a b : String) :
    ∀ (ps : List (String × String)) (g : ImprovedStatisticalGlosser),
    (ps.foldl trainPair g).co_occurrences a b =
      g.co_occurrences a b + incCo g.stop_words ps a b ∧
    (ps.foldl trainPair g).source_counts a =
      g.source_counts a + incSC g.stop_words ps a ∧
    (ps.foldl trainPair g).target_counts b =
      g.target_counts b + incTC g.stop_words ps b ∧
    (ps.foldl trainPair g).source_doc_freq a =
      g.source_doc_freq a + incSDF g.stop_words ps a ∧
    (ps.foldl trainPair g).target_doc_freq b =
      g.target_doc_freq b + incTDF g.stop_words ps b ∧
    (ps.foldl trainPair g).stop_words = g.stop_words ∧
    (ps.foldl trainPair g).total_docs = g.total_docs ∧
    (ps.foldl trainPair g).known_glosses = g.known_glosses
  | [], g => by
    simp [incCo, incSC, incTC, incSDF, incTDF]
  | p :: ps, g => by
    obtain ⟨hco, hsc, htc, hsdf, htdf, hstop, htotal, hknown⟩ :=
      trainPair_fields g p a b
    obtain ⟨ico, isc, itc, isdf, itdf, istop, itotal, iknown⟩ :=
      foldTrain_fields a b ps (trainPair g p)
    rw [List.foldl_cons]
    rw [hstop] at ico isc itc isdf itdf
    refine ⟨?_, ?_, ?_, ?_, ?_, ?_, ?_, ?_⟩
    · rw [ico, hco]
      simp [incCo]
      omega
    · rw [isc, hsc]
      simp [incSC]
      omega
    · rw [itc, htc]
      simp [incTC]
      omega
    · rw [isdf, hsdf]
      simp [incSDF]
      omega
    · rw [itdf, htdf]
      simp [incTDF]
      omega
    · rw [istop, hstop]
    · rw [itotal, htotal]
    · rw [iknown, hknown]

/-- Per-field behaviour of one `train` call. -/
theorem train_fields (g : ImprovedStatisticalGlosser) (src tgt : List String)
    (a b : String) :
    (g.train src tgt).co_occurrences a b = g.co_occurrences a b +
      incCo (calculate_stop_words (src ++ tgt) 75) (src.zip tgt) a b ∧
    (g.train src tgt).source_counts a = g.source_counts a +
      incSC (calculate_stop_words (src ++ tgt) 75) (src.zip tgt) a ∧
    (g.train src tgt).target_counts b = g.target_counts b +
      incTC (calculate_stop_words (src ++ tgt) 75) (src.zip tgt) b ∧
    (g.train src tgt).source_doc_freq a = g.source_doc_freq a +
      incSDF (calculate_stop_words (src ++ tgt) 75) (src.zip tgt) a ∧
    (g.train src tgt).target_doc_freq b = g.target_doc_freq b +
      incTDF (calculate_stop_words (src ++ tgt) 75) (src.zip tgt) b ∧
    (g.train src tgt).stop_words = calculate_stop_words (src ++ tgt) 75 ∧
    (g.train src tgt).total_docs = src.length ∧
    (g.train src tgt).known_glosses = g.known_glosses := by
  unfold ImprovedStatisticalGlosser.train
  dsimp only
  exact foldTrain_fields a b (src.zip tgt) _

/-! ### Claim C2 -/

/-- A 6-pair corpus (12 sentences) keeping `cat`/`chat` below the 10%
stop-word threshold. -/
def c2src : List String := ["cat", "", "", "", "", ""]

def c2tgt : List String := ["chat", "", "", "", "", ""]

/-- **C2, counterexample.**  Training twice on identical input does NOT
reproduce the single-train model: `train` never clears the count tables
(only `total_docs` and `stop_words` are replaced), so the co-occurrence
count of (`cat`, `chat`) doubles from 1 to 2 and the models differ. -/
theorem c2_counterexample :
    (glosserInit.train c2src c2tgt).co_occurrences "cat" "chat" = 1 ∧
    ((glosserInit.train c2src c2tgt).train c2src c2tgt).co_occurrences "cat" "chat"
      = 2 ∧
    (glosserInit.train c2src c2tgt).train c2src c2tgt ≠
      glosserInit.train c2src c2tgt := by
  refine ⟨by decide, by decide, fun h => ?_⟩
  have h2 := congrArg (fun g => g.co_occurrences "cat" "chat") h
  dsimp only at h2
  rw [show ((glosserInit.train c2src c2tgt).train c2src c2tgt).co_occurrences
      "cat" "chat" = 2 from by decide,
    show (glosserInit.train c2src c2tgt).co_occurrences "cat" "chat" = 1
      from by decide] at h2
  exact absurd h2 (by decide)

/-- **C2, amended.**  `train` merges instead of resetting: for every input,
after two identical `train` calls each co-occurrence count, per-token
total and per-side document frequency is exactly TWICE its single-train
value, while `total_docs`, the stop-word set and the known-gloss table
match the single-train state.  (Equality of the models therefore fails
whenever any count is nonzero.) -/
theorem c2_amended (src tgt : List String) (a b : String) :
    ((glosserInit.train src tgt).train src tgt).co_occurrences a b =
      2 * (glosserInit.train src tgt).co_occurrences a b ∧
    ((glosserInit.train src tgt).train src tgt).source_counts a =
      2 * (glosserInit.train src tgt).source_counts a ∧
    ((glosserInit.train src tgt).train src tgt).target_counts b =
      2 * (glosserInit.train src tgt).target_counts b ∧
    ((glosserInit.train src tgt).train src tgt).source_doc_freq a =
      2 * (glosserInit.train src tgt).source_doc_freq a ∧
    ((glosserInit.train src tgt).train src tgt).target_doc_freq b =
      2 * (glosserInit.train src tgt).target_doc_freq b ∧
    ((glosserInit.train src tgt).train src tgt).total_docs =
      (glosserInit.train src tgt).total_docs ∧
    ((glosserInit.train src tgt).train src tgt).stop_words =
      (glosserInit.train src tgt).stop_words := by
  obtain ⟨hco1, hsc1, htc1, hsdf1, htdf1, hstop1, htotal1, hknown1⟩ :=
    train_fields glosserInit src tgt a b
  obtain ⟨hco2, hsc2, htc2, hsdf2, htdf2, hstop2, htotal2, hknown2⟩ :=
    train_fields (glosserInit.train src tgt) src tgt a b
  have hz : ∀ x : String, glosserInit.co_occurrences x = fun _ => 0 := fun _ => rfl
  refine ⟨?_, ?_, ?_, ?_, ?_, ?_, ?_⟩
  · rw [hco2, hco1]
    show (0 : Nat) + _ + _ = 2 * ((0 : Nat) + _)
    omega
  · rw [hsc2, hsc1]
    show (0 : Nat) + _ + _ = 2 * ((0 : Nat) + _)
    omega
  · rw [htc2, htc1]
    show (0 : Nat) + _ + _ = 2 * ((0 : Nat) + _)
    omega
  · rw [hsdf2, hsdf1]
    show (0 : Nat) + _ + _ = 2 * ((0 : Nat) + _)
    omega
  · rw [htdf2, htdf1]
    show (0 : Nat) + _ + _ = 2 * ((0 : Nat) + _)
    omega
  · rw [htotal2, htotal1]
  · rw [hstop2, hstop1]

/-! ### Scoring and glossing (improved_statistical_glosser.py:66-231) -/

/-- `calculate_score` (improved_statistical_glosser.py:95-110).  Floats are
modelled over `ℝ`; `math.log` is `Real.log`.  (In states reachable from
training, a positive co-occurrence forces positive token counts, so the
divisions are the mathematical ones.) -/
noncomputable def calculate_score (g : ImprovedStatisticalGlosser)
    (source_token target_token : String)
    (source_pos target_pos source_len target_len : ℕ) : ℝ :=
  let co_occur := g.co_occurrences source_token target_token
  if co_occur = 0 then 0
  else
    let source_count := g.source_counts source_token
    let target_count := g.target_counts target_token
    let source_idf :=
      Real.log ((g.total_docs : ℝ) / ((g.source_doc_freq source_token : ℝ) + 1))
    let target_idf :=
      Real.log ((g.total_docs : ℝ) / ((g.target_doc_freq target_token : ℝ) + 1))
    let tfidf_score := ((co_occur : ℝ) / (source_count : ℝ)) * source_idf *
      ((co_occur : ℝ) / (target_count : ℝ)) * target_idf
    let position_score :=
      1 - |((source_pos : ℝ) / (source_len : ℝ)) - ((target_pos : ℝ) / (target_len : ℝ))|
    tfidf_score * position_score

/-- Stable insertion for Python's `list.sort(key=score, reverse=True)`:
equal scores keep their existing order. -/
noncomputable def insertScoreDesc (x : String × ℝ) :
    List (String × ℝ) → List (String × ℝ)
  | [] => [x]
  | y :: ys => if x.2 ≤ y.2 then y :: insertScoreDesc x ys else x :: y :: ys

noncomputable def sortScoresDesc (l : List (String × ℝ)) : List (String × ℝ) :=
  l.foldl (fun acc x => insertScoreDesc x acc) []

theorem mem_insertScoreDesc (x z : String × ℝ) :
    ∀ l : List (String × ℝ), z ∈ insertScoreDesc x l → z = x ∨ z ∈ l
  | [], h => by simpa [insertScoreDesc] using h
  | y :: ys, h => by
    simp only [insertScoreDesc] at h
    split at h
    · rcases List.mem_cons.mp h with h | h
      · exact Or.inr (h ▸ List.mem_cons_self _ _)
      · rcases mem_insertScoreDesc x z ys h with h | h
        · exact Or.inl h
        · exact Or.inr (List.mem_cons_of_mem _ h)
    · rcases List.mem_cons.mp h with h | h
      · exact Or.inl h
      · exact Or.inr h

theorem mem_sortScoresDesc (z : String × ℝ) (l : List (String × ℝ))
    (h : z ∈ sortScoresDesc l) : z ∈ l := by
  unfold sortScoresDesc at h
  revert h
  refine fun h => (foldl_preserve_mem
    (P := fun acc : List (String × ℝ) => ∀ y ∈ acc, y ∈ l) _ l []
    (by intro y hy; simp at hy) ?_ z h)
  intro acc x hx hacc y hy
  rcases mem_insertScoreDesc x y acc hy with rfl | hy
  · exact hx
  · exact hacc y hy

/-- `gloss` (improved_statistical_glosser.py:66-93): per source token,
known glosses found among the target tokens first (score 1.0); otherwise
every positive-scoring target token; sorted by descending score. -/
noncomputable def ImprovedStatisticalGlosser.gloss (g : ImprovedStatisticalGlosser)
    (source_sentence target_sentence : String) :
    List (String × List (String × ℝ)) :=
  let source_tokens := tokenizeFiltered g.stop_words source_sentence
  let target_tokens := tokenizeFiltered g.stop_words target_sentence
  source_tokens.enum.map (fun iv =>
    let s_token := iv.2
    let known_mappings :=
      match g.known_glosses.find? (fun p => p.1 = s_token) with
      | some p => (p.2.filter (fun t => target_tokens.contains t)).map
          (fun t => (t, (1 : ℝ)))
      | none => []
    let token_mappings :=
      if known_mappings.isEmpty then
        target_tokens.enum.filterMap (fun jt =>
          let score := calculate_score g s_token jt.2 iv.1 jt.1
            source_tokens.length target_tokens.length
          if score > 0 then some (jt.2, score) else none)
      else known_mappings
    (s_token, sortScoresDesc token_mappings))

/-- `predict_gloss_for_source_word` (improved_statistical_glosser.py:157-171). -/
noncomputable def predict_gloss_for_source_word (g : ImprovedStatisticalGlosser)
    (source_word : String) (top_n : Nat) : List (String × ℝ) :=
  if g.stop_words.contains source_word then []
  else
    match g.known_glosses.find? (fun p => p.1 = source_word) with
    | some p => (p.2.map (fun gl => (gl, (1 : ℝ)))).take top_n
    | none =>
      (sortScoresDesc (g.target_vocab.filterMap (fun target_word =>
        if g.stop_words.contains target_word then none
        else
          let score := calculate_score g source_word target_word 0 0 1 1
          if score > 0 then some (target_word, score) else none))).take top_n

/-- `predict_gloss_for_target_word` (improved_statistical_glosser.py:173-188). -/
noncomputable def predict_gloss_for_target_word (g : ImprovedStatisticalGlosser)
    (target_word : String) (top_n : Nat) : List (String × ℝ) :=
  if g.stop_words.contains target_word then []
  else
    match g.known_glosses.find? (fun p => p.2.contains target_word) with
    | some p => [(p.1, (1 : ℝ))].take top_n
    | none =>
      (sortScoresDesc (g.source_vocab.filterMap (fun source_word =>
        if g.stop_words.contains source_word then none
        else
          let score := calculate_score g source_word target_word 0 0 1 1
          if score > 0 then some (source_word, score) else none))).take top_n

/-- `predict_word_glosses` (improved_statistical_glosser.py:150-155). -/
noncomputable def ImprovedStatisticalGlosser.predict_word_glosses
    (g : ImprovedStatisticalGlosser) (word : String) (is_source : Bool)
    (top_n : Nat) : List (String × ℝ) :=
  if is_source then predict_gloss_for_source_word g word top_n
  else predict_gloss_for_target_word g word top_n

/-- `predict_sentence_glosses` (improved_statistical_glosser.py:207-231). -/
noncomputable def ImprovedStatisticalGlosser.predict_sentence_glosses
    (g : ImprovedStatisticalGlosser) (sentence : String) (is_source : Bool)
    (top_n : Nat) : List (List String) :=
  (tokenizeFiltered g.stop_words sentence).map (fun token =>
    (if is_source then predict_gloss_for_source_word g token top_n
     else predict_gloss_for_target_word g token top_n).map Prod.fst)

/-- `generate_wooden_translation` (improved_statistical_glosser.py:190-205). -/
noncomputable def ImprovedStatisticalGlosser.generate_wooden_translation
    (g : ImprovedStatisticalGlosser) (sentence : String) (is_source : Bool) :
    String :=
  let tokens := tokenizeFiltered g.stop_words sentence
  let glosses := g.predict_sentence_glosses (" ".intercalate tokens) is_source 1
  " ".intercalate (glosses.map (fun gloss_list => gloss_list.headD "[UNK]"))

/-! ### Claim C5 -/

/-- 75 distinct filler words, each occurring 4 times in the corpus below:
they fill the stop-word cap so that `a` (3 occurrences, hence in every
source sentence) escapes the stop-word set. -/
def fillers : List String := (List.range 75).map (fun i => "f" ++ toString i)

def fillerSentence : String := " ".intercalate fillers

def c5src : List String := ["a " ++ fillerSentence, "a " ++ fillerSentence, "a"]

def c5tgt : List String := [fillerSentence, fillerSentence, "b"]

/-- A glosser trained by a single `train` call on a 3-pair corpus.  The 75
fillers occupy the whole stop-word cap, `a` and `b` survive; `a` then
appears in all 3 source sentences (`source_doc_freq = total_docs = 3`), so
its idf factor `log(3/4)` is negative while `b`'s `log(3/2)` is positive. -/
def c5g : ImprovedStatisticalGlosser := glosserInit.train c5src c5tgt

set_option maxHeartbeats 4000000 in
set_option maxRecDepth 100000 in
theorem c5_state_facts :
    c5g.co_occurrences "a" "b" = 1 ∧ c5g.source_counts "a" = 3 ∧
    c5g.target_counts "b" = 1 ∧ c5g.source_doc_freq "a" = 3 ∧
    c5g.target_doc_freq "b" = 1 ∧ c5g.total_docs = 3 := by decide

set_option maxRecDepth 100000 in
/-- **C5, counterexample.**  On the trained state `c5g`, with positions
inside the lengths (`0 < 1`), `calculateScore("a","b",0,0,1,1)` is
`(1/3)·log(3/4)·(1/1)·log(3/2)·1 < 0`: the score IS negative, because the
source token's document frequency reaches `total_docs` and only one of the
two idf factors flips sign. -/
theorem c5_counterexample : calculate_score c5g "a" "b" 0 0 1 1 < 0 := by
  obtain ⟨hco, hsc, htc, hsdf, htdf, htd⟩ := c5_state_facts
  unfold calculate_score
  dsimp only
  rw [hco, hsc, htc, hsdf, htdf, htd]
  rw [if_neg (by norm_num)]
  have h1 : Real.log ((3 : ℝ) / ((3 : ℝ) + 1)) < 0 :=
    Real.log_neg (by norm_num) (by norm_num)
  have h2 : 0 < Real.log ((3 : ℝ) / ((1 : ℝ) + 1)) :=
    Real.log_pos (by norm_num)
  push_cast
  have habs : |((0 : ℝ) / 1) - ((0 : ℝ) / 1)| = 0 := by norm_num
  rw [habs]
  nlinarith [mul_pos (mul_pos (by norm_num : (0:ℝ) < 1/3)
    (neg_pos.mpr h1)) h2]

/-- **C5, amended.**  `calculateScore` is never negative PROVIDED neither
token's per-side document frequency reaches the total pair count (so both
idf factors are ≥ 0) and the positions are inside the lengths; without
that proviso one idf factor can flip sign (see the counterexample). -/
theorem c5_amended (g : ImprovedStatisticalGlosser) (s t : String)
    (sp tp sl tl : ℕ) (hsp : sp < sl) (htp : tp < tl)
    (hs : g.source_doc_freq s + 1 ≤ g.total_docs)
    (ht : g.target_doc_freq t + 1 ≤ g.total_docs) :
    0 ≤ calculate_score g s t sp tp sl tl := by
  unfold calculate_score
  dsimp only
  split
  · exact le_refl _
  · have hslr : (0 : ℝ) < sl := by
      exact_mod_cast Nat.lt_of_le_of_lt (Nat.zero_le sp) hsp
    have htlr : (0 : ℝ) < tl := by
      exact_mod_cast Nat.lt_of_le_of_lt (Nat.zero_le tp) htp
    have hidf1 : 0 ≤ Real.log ((g.total_docs : ℝ) / ((g.source_doc_freq s : ℝ) + 1)) := by
      apply Real.log_nonneg
      rw [le_div_iff (by positivity)]
      have : ((g.source_doc_freq s : ℝ) + 1) ≤ (g.total_docs : ℝ) := by
        exact_mod_cast hs
      linarith
    have hidf2 : 0 ≤ Real.log ((g.total_docs : ℝ) / ((g.target_doc_freq t : ℝ) + 1)) := by
      apply Real.log_nonneg
      rw [le_div_iff (by positivity)]
      have : ((g.target_doc_freq t : ℝ) + 1) ≤ (g.total_docs : ℝ) := by
        exact_mod_cast ht
      linarith
    have hx0 : (0 : ℝ) ≤ (sp : ℝ) / sl := by positivity
    have hx1 : (sp : ℝ) / sl ≤ 1 := by
      rw [div_le_one hslr]
      exact_mod_cast Nat.le_of_lt hsp
    have hy0 : (0 : ℝ) ≤ (tp : ℝ) / tl := by positivity
    have hy1 : (tp : ℝ) / tl ≤ 1 := by
      rw [div_le_one htlr]
      exact_mod_cast Nat.le_of_lt htp
    have hpos : 0 ≤ 1 - |((sp : ℝ) / sl) - ((tp : ℝ) / tl)| := by
      rw [sub_nonneg, abs_sub_le_iff]
      constructor <;> linarith
    have hdiv1 : (0 : ℝ) ≤
        (g.co_occurrences s t : ℝ) / (g.source_counts s : ℝ) := by positivity
    have hdiv2 : (0 : ℝ) ≤
        (g.co_occurrences s t : ℝ) / (g.target_counts t : ℝ) := by positivity
    exact mul_nonneg
      (mul_nonneg (mul_nonneg (mul_nonneg hdiv1 hidf1) hdiv2) hidf2) hpos

/-- Witness for `c5_amended` on a small trained state where both document
frequencies stay below `total_docs`. -/
theorem c5_amended_witness :
    0 ≤ calculate_score (glosserInit.train c2src c2tgt) "cat" "chat" 0 0 1 1 :=
  c5_amended (glosserInit.train c2src c2tgt) "cat" "chat" 0 0 1 1
    (by decide) (by decide) (by decide) (by decide)

/-! ### Claim C6 -/

/-- A trained glosser whose known-gloss table contains the headword
`"the"`, which the 2-sentence corpus makes a stop word (everything in a
2-sentence corpus exceeds the 10% threshold). -/
def c6g : ImprovedStatisticalGlosser :=
  (glosserInit.train ["the cat"] ["le chat"]).add_known_glosses [("the", ["le"])]

/-- **C6, counterexample.**  The headword `"the"` has a known-gloss entry,
yet `predictWordGlosses("the", isSource=true, 1)` returns `[]`, not the
known gloss with score 1.0: the stop-word check precedes the known-gloss
lookup. -/
theorem c6_counterexample :
    (c6g.known_glosses.find? (fun p => p.1 = "the")).isSome = true ∧
    "the" ∈ c6g.stop_words ∧
    c6g.predict_word_glosses "the" true 1 = [] := by
  refine ⟨by decide, by decide, ?_⟩
  unfold ImprovedStatisticalGlosser.predict_word_glosses
    predict_gloss_for_source_word
  rw [if_pos rfl, if_pos (by decide : c6g.stop_words.contains "the" = true)]

/-- **C6, amended.**  For every glosser state and source token with a
known-gloss entry, PROVIDED the token is not in the StopWordSet,
`predictWordGlosses(token, isSource=true, 1)` returns exactly the entry's
glosses (truncated to one) each with score 1.0, regardless of the
co-occurrence statistics; a stop-word token returns `[]` instead (see the
counterexample). -/
theorem c6_amended (g : ImprovedStatisticalGlosser) (w : String)
    (pr : String × List String)
    (hstop : g.stop_words.contains w = false)
    (hk : g.known_glosses.find? (fun p => p.1 = w) = some pr) :
    g.predict_word_glosses w true 1 =
      (pr.2.map (fun gl => (gl, (1 : ℝ)))).take 1 ∧
    ∀ x ∈ g.predict_word_glosses w true 1, x.2 = 1 := by
  have hmain : g.predict_word_glosses w true 1 =
      (pr.2.map (fun gl => (gl, (1 : ℝ)))).take 1 := by
    unfold ImprovedStatisticalGlosser.predict_word_glosses
      predict_gloss_for_source_word
    rw [if_pos rfl, if_neg (by rw [hstop]; exact Bool.false_ne_true), hk]
  refine ⟨hmain, ?_⟩
  intro x hx
  rw [hmain] at hx
  have hx2 := List.mem_of_mem_take hx
  obtain ⟨gl, _, rfl⟩ := List.mem_map.mp hx2
  rfl

/-- A trained glosser with a non-stop-word headword `"cat"`. -/
def c6w : ImprovedStatisticalGlosser :=
  (glosserInit.train c2src c2tgt).add_known_glosses [("cat", ["chat"])]

/-- Witness for `c6_amended` at `c6w`: the known gloss comes back with
score 1.0. -/
theorem c6_amended_witness :
    c6w.predict_word_glosses "cat" true 1 =
      ((["chat"].map (fun gl => (gl, (1 : ℝ)))).take 1) :=
  (c6_amended c6w "cat" ("cat", ["chat"]) (by decide) (by decide)).1

/-! ### Claim C7 -/

/-- `true` iff no candidate in the list is a stop word. -/
def noStopCandidates (sw : List String) (l : List (String × ℝ)) : Bool :=
  l.all (fun c => !(sw.contains c.1))

/-- A trained glosser (6 pairs, 12 sentences) where `"le"` is a stop word
(2 of 12 sentences) but `"cat"` is not (1 of 12), with the known-gloss
entry `cat → le`. -/
def c7g : ImprovedStatisticalGlosser :=
  (glosserInit.train ["cat", "", "", "", "", ""] ["le", "le", "", "", "", ""]
    ).add_known_glosses [("cat", ["le"])]

/-- **C7, counterexample.**  The stop word `"le"` appears as a candidate
value in a gloss result: known-gloss entries are returned verbatim by
`predictWordGlosses` with no stop-word filtering of the VALUES. -/
theorem c7_counterexample :
    "le" ∈ c7g.stop_words ∧
    c7g.predict_word_glosses "cat" true 1 = [("le", (1 : ℝ))] := by
  refine ⟨by decide, ?_⟩
  unfold ImprovedStatisticalGlosser.predict_word_glosses
    predict_gloss_for_source_word
  rw [if_pos rfl, if_neg (by decide), show c7g.known_glosses.find?
    (fun p => p.1 = "cat") = some ("cat", ["le"]) from by decide]
  rfl

theorem tokenizeFiltered_not_stop (sw : List String) (s : String) (t : String)
    (ht : t ∈ tokenizeFiltered sw s) : sw.contains t = false := by
  unfold tokenizeFiltered at ht
  have := (List.mem_filter.mp ht).2
  simpa using this

theorem not_mem_of_contains_eq_false {l : List String} {x : String}
    (h : l.contains x = false) : x ∉ l := by
  intro hmem
  have h2 : l.contains x = true := List.elem_eq_true_of_mem hmem
  rw [h2] at h
  cases h

theorem mem_of_mem_enum {α : Type} (l : List α) (p : ℕ × α) (h : p ∈ l.enum) :
    p.2 ∈ l := by
  obtain ⟨i, a⟩ := p
  rw [List.enum_eq_zip_range] at h
  exact (List.mem_zip h).2

/-- **C7, amended.**  No StopWordSet token ever appears as a source-side
key or candidate value in a `gloss` result; and in `predictWordGlosses`
(hence `predictSentenceGlosses`/`generateWoodenTranslation`, which map it)
the same holds PROVIDED the queried token has no known-gloss entry —
known-gloss entries are returned verbatim, unfiltered (see the
counterexample). -/
theorem c7_amended (g : ImprovedStatisticalGlosser) (ss ts w : String) (n : Nat) :
    ((g.gloss ss ts).all (fun pr =>
      (!(g.stop_words.contains pr.1)) && noStopCandidates g.stop_words pr.2)
        = true) ∧
    (g.known_glosses.find? (fun p => p.1 = w) = none →
      noStopCandidates g.stop_words (g.predict_word_glosses w true n) = true) ∧
    (g.known_glosses.find? (fun p => p.2.contains w) = none →
      noStopCandidates g.stop_words (g.predict_word_glosses w false n) = true) := by
  refine ⟨?_, ?_, ?_⟩
  · rw [List.all_eq_true]
    intro pr hpr
    unfold ImprovedStatisticalGlosser.gloss at hpr
    simp only [List.mem_map] at hpr
    obtain ⟨iv, hiv, rfl⟩ := hpr
    dsimp only
    rw [Bool.and_eq_true]
    constructor
    · have hmem : iv.2 ∈ tokenizeFiltered g.stop_words ss := mem_of_mem_enum _ _ hiv
      simp [not_mem_of_contains_eq_false
        (tokenizeFiltered_not_stop g.stop_words ss iv.2 hmem)]
    · rw [noStopCandidates, List.all_eq_true]
      intro c hc
      have hc2 := mem_sortScoresDesc c _ hc
      split at hc2
      · obtain ⟨jt, hjt, hjc⟩ := List.mem_filterMap.mp hc2
        split at hjc
        · cases hjc
          have hcand : jt.2 ∈ tokenizeFiltered g.stop_words ts :=
            mem_of_mem_enum _ _ hjt
          simp [not_mem_of_contains_eq_false
            (tokenizeFiltered_not_stop g.stop_words ts jt.2 hcand)]
        · exact Option.noConfusion hjc
      · cases hfind : g.known_glosses.find? (fun p => p.1 = iv.2) with
        | none =>
          rw [hfind] at hc2
          simp at hc2
        | some p =>
          rw [hfind] at hc2
          obtain ⟨t, ht, rfl⟩ := List.mem_map.mp hc2
          have hcontains := (List.mem_filter.mp ht).2
          have hmemt : t ∈ tokenizeFiltered g.stop_words ts :=
            List.mem_of_elem_eq_true hcontains
          simp [not_mem_of_contains_eq_false
            (tokenizeFiltered_not_stop g.stop_words ts t hmemt)]
  · intro hk
    rw [noStopCandidates, List.all_eq_true]
    intro c hc
    unfold ImprovedStatisticalGlosser.predict_word_glosses
      predict_gloss_for_source_word at hc
    rw [if_pos rfl] at hc
    split at hc
    · simp at hc
    · rw [hk] at hc
      have hc2 := mem_sortScoresDesc c _ (List.mem_of_mem_take hc)
      obtain ⟨tw, htw, htc⟩ := List.mem_filterMap.mp hc2
      dsimp only at htc
      split at htc
      · exact Option.noConfusion htc
      · rename_i hnotstop
        split at htc
        · cases htc
          simp only [Bool.not_eq_true] at hnotstop
          simp [not_mem_of_contains_eq_false hnotstop]
        · exact Option.noConfusion htc
  · intro hk
    rw [noStopCandidates, List.all_eq_true]
    intro c hc
    unfold ImprovedStatisticalGlosser.predict_word_glosses
      predict_gloss_for_target_word at hc
    rw [if_neg (by simp)] at hc
    split at hc
    · simp at hc
    · rw [hk] at hc
      have hc2 := mem_sortScoresDesc c _ (List.mem_of_mem_take hc)
      obtain ⟨sw2, hsw2, hsc⟩ := List.mem_filterMap.mp hc2
      dsimp only at hsc
      split at hsc
      · exact Option.noConfusion hsc
      · rename_i hnotstop
        split at hsc
        · cases hsc
          simp only [Bool.not_eq_true] at hnotstop
          simp [not_mem_of_contains_eq_false hnotstop]
        · exact Option.noConfusion hsc

/-- Witness for `c7_amended` at `c7g` and tokens without known-gloss
entries. -/
theorem c7_amended_witness :
    ((c7g.gloss "cat x" "le y").all (fun pr =>
      (¬ c7g.stop_words.contains pr.1) && noStopCandidates c7g.stop_words pr.2)
        = true) ∧
    noStopCandidates c7g.stop_words (c7g.predict_word_glosses "dog" true 3) = true ∧
    noStopCandidates c7g.stop_words (c7g.predict_word_glosses "chien" false 3)
      = true :=
  ⟨(c7_amended c7g "cat x" "le y" "dog" 3).1,
   (c7_amended c7g "cat x" "le y" "dog" 3).2.1 (by decide),
   (c7_amended c7g "cat x" "le y" "chien" 3).2.2 (by decide)⟩

/-! ## `MarkovChain` and `BidirectionalInverseAttention` (bia.py)

File reading is I/O: the constructor receives the file's contents.  The
`sklearn` vectorizer enters only through (a) which sentences have a
nonzero cosine score against a query — exactly those sharing a fitted
vocabulary token (token pattern `\b\w\w+\b`: word-character runs of
length ≥ 2, lowercased) — and (b) the idf ordering used to pick rare
words, which (smoothed idf `ln((1+n)/(1+df))+1` being strictly decreasing
in the document frequency) is the stable ascending order by document
frequency.  Thread-pool fan-out is pure per task; results are modelled in
submission order (Python's `as_completed` order is nondeterministic, which
only permutes tie order in the final tally; no theorem below depends on
it). -/

/-- Python's `\s` for the ASCII corpora in scope. -/
def isPySpace (c : Char) : Bool :=
  c = ' ' || c = '\t' || c = '\n' || c = '\r' || c = '\x0b' || c = '\x0c'

/-- Maximal runs of characters satisfying `p`; `acc` holds the current run
reversed. -/
def runsByAux (p : Char → Bool) : List Char → List Char → List (List Char)
  | [], acc => if acc.isEmpty then [] else [acc.reverse]
  | c :: cs, acc =>
    if p c then runsByAux p cs (c :: acc)
    else if acc.isEmpty then runsByAux p cs []
    else acc.reverse :: runsByAux p cs []

def runsBy (p : Char → Bool) (l : List Char) : List (List Char) := runsByAux p l []

/-- Python `str.split()`: whitespace-delimited, empties discarded. -/
def pySplit (s : String) : List String :=
  (runsBy (fun c => !(isPySpace c)) s.data).map (fun cs => String.mk cs)

/-- Python `str.lower()`. -/
def pyLower (s : String) : String := String.mk (s.data.map Char.toLower)

/-- `needle` occurs as a contiguous substring (Python's `needle in hay`). -/
def containsSub (hay needle : List Char) : Bool :=
  (List.range (hay.length + 1)).any (fun i => needle.isPrefixOf (hay.drop i))

/-- The sentence-boundary condition of bia.py:101 at a whitespace character,
given the PRECEDING characters most-recent-first: the previous character is
`.` or `?` (`(?<=\.|\?)`), not preceded by a word-dot-word abbreviation
(`(?<!\w\.\w.)`) nor by an honorific like `Mr.` (`(?<![A-Z][a-z]\.)`). -/
def sentenceBoundary (prev : List Char) : Bool :=
  match prev with
  | [] => false
  | p1 :: rest =>
    (p1 = '.' || p1 = '?') &&
    !(match rest with
      | p2 :: p3 :: p4 :: _ => isWordChar p4 && p3 = '.' && isWordChar p2
      | _ => false) &&
    !(match rest with
      | p2 :: p3 :: _ => p3.isUpper && p2.isLower && p1 = '.'
      | _ => false)

/-- `re.split(r'(?<!\w\.\w.)(?<![A-Z][a-z]\.)(?<=\.|\?)\s', corpus)`:
split at (and consume) each whitespace character whose lookbehinds match.
`cur` holds the current piece reversed, `prev` the already-consumed
characters most-recent-first. -/
def splitSentencesAux : List Char → List Char → List Char → List (List Char)
  | [], cur, _ => [cur.reverse]
  | c :: rest, cur, prev =>
    if isPySpace c && sentenceBoundary prev then
      cur.reverse :: splitSentencesAux rest [] (c :: prev)
    else splitSentencesAux rest (c :: cur) (c :: prev)

def splitSentences (s : String) : List String :=
  (splitSentencesAux s.data [] []).map (fun cs => String.mk cs)

/-- `re.sub(r'[^\w\s]', '', sentence)`. -/
def stripNonWord (s : String) : String :=
  String.mk (s.data.filter (fun c => isWordChar c || isPySpace c))

/-- `re.sub(r'\[MASK\]', '', query)`, with the fuel bounded by the input
length (each step consumes at least one character). -/
def removeMaskAux : Nat → List Char → List Char
  | 0, l => l
  | _ + 1, [] => []
  | fuel + 1, c :: cs =>
    if ("[MASK]".data).isPrefixOf (c :: cs) then removeMaskAux fuel (cs.drop 5)
    else c :: removeMaskAux fuel cs

def removeMask (s : String) : String := String.mk (removeMaskAux s.data.length s.data)

/-- The fitted `TfidfVectorizer` tokens of one sentence: lowercased
word-character runs of length at least 2 (`token_pattern=r"(?u)\b\w\w+\b"`;
the corpus is already lowercased). -/
def sklearnTokens (s : String) : List String :=
  ((wordRuns s.data).filter (fun r => 2 ≤ r.length)).map (fun cs => String.mk cs)

/-- Generic in-place value update of an association list (shared by the
Markov-chain `dict` appends). -/
def updateVal {β : Type} (d : List (String × β)) (k : String) (f : β → β) :
    List (String × β) :=
  d.map (fun p => if p.1 = k then (p.1, f p.2) else p)

theorem lookupKey_updateVal {β : Type} (d : List (String × β)) (k : String)
    (f : β → β) (r : String) :
    lookupKey (updateVal d k f) r =
      if r = k then (lookupKey d r).map f else lookupKey d r := by
  unfold lookupKey updateVal
  rw [List.find?_map]
  rw [find?_congr _ (fun p : String × β => decide (p.1 = r)) d (by
    intro p _
    by_cases h : p.1 = k <;> simp [h])]
  cases hf : d.find? (fun p : String × β => decide (p.1 = r)) with
  | none => simp
  | some p =>
    have hp : p.1 = r := by simpa using List.find?_some hf
    by_cases hrk : r = k
    · subst hrk
      simp [hp]
    · simp [hp, hrk]

/-- `mapping[word].append(next)` on a Python `dict` (bia.py:36-44). -/
def addPair (m : List (String × List String)) (k v : String) :
    List (String × List String) :=
  if m.any (fun p => p.1 = k) then updateVal m k (fun l => l ++ [v])
  else m ++ [(k, [v])]

/-- `MarkovChain` (bia.py:12-76): `words = corpus.split()`; `mapping` maps
each non-final word to the list of its successors; `reverse_mapping` maps
each word at positions `1..len-2` to its predecessors. -/
structure MarkovChain where
  words : List String
  mapping : List (String × List String)
  reverse_mapping : List (String × List String)

def mkMarkovChain (corpus : String) : MarkovChain :=
  let words := pySplit corpus
  { words := words,
    mapping := (words.zip (words.drop 1)).foldl (fun m p => addPair m p.1 p.2) [],
    reverse_mapping := (((words.drop 1).dropLast).zip words).foldl
      (fun m p => addPair m p.1 p.2) [] }

/-- `can_be_next` (bia.py:46-60): vacuously true when the preceding word
has no recorded successor list ("cause why not"). -/
def MarkovChain.can_be_next (m : MarkovChain) (last next_ : String) : Bool :=
  match m.mapping.find? (fun p => p.1 = last) with
  | none => true
  | some p => p.2.contains next_

structure BidirectionalInverseAttention where
  corpus : String
  chain : MarkovChain
  sentences : List String
  vocab : List String
  docFreq : String → Nat

/-- `BidirectionalInverseAttention.__init__` (bia.py:92-113), on the
already-read file contents. -/
def mkBIA (raw : String) : BidirectionalInverseAttention :=
  let corpus := pyLower raw
  let sentences := (splitSentences corpus).map stripNonWord
  { corpus := corpus,
    chain := mkMarkovChain corpus,
    sentences := sentences,
    vocab := ((sentences.map sklearnTokens).flatten).dedup,
    docFreq := fun w =>
      (sentences.filter (fun s => (sklearnTokens s).contains w)).length }

/-- `search` (bia.py:115-142).  `relevant_indices` are the sentences with a
nonzero cosine score against the stripped query, i.e. those sharing a
fitted-vocabulary token with it, in ascending index order (`.nonzero()`);
`start` is `0` and `end` is `len(relevant_indices) - 1` — a COUNT used as
an index bound — unless `bound` is nonempty, in which case both come from
the first/last sentence containing `bound` as a substring (Python raises
there if no sentence contains `bound`; not modelled, unreached below). -/
def BidirectionalInverseAttention.search (b : BidirectionalInverseAttention)
    (query : String) (bound : String) : List String :=
  let q := removeMask query
  let qTokens := (sklearnTokens q).filter (fun t => b.vocab.contains t)
  let relevant_indices := (List.range b.sentences.length).filter (fun i =>
    (sklearnTokens (b.sentences.getD i "")).any (fun t => qTokens.contains t))
  let se : Nat × Nat :=
    if bound ≠ "" then
      match b.sentences.filter (fun s => containsSub s.data bound.data) with
      | [] => (0, relevant_indices.length - 1)
      | r0 :: rest =>
        (b.sentences.findIdx (fun s => s = r0),
         b.sentences.findIdx (fun s => s = (r0 :: rest).getLast (by simp)))
    else (0, relevant_indices.length - 1)
  (relevant_indices.filter (fun i => se.1 < i && i < se.2)).map
    (fun i => b.sentences.getD i "")

/-- `predict_from` (bia.py:193-217): one per-context-word vote counter. -/
def BidirectionalInverseAttention.predict_from
    (b : BidirectionalInverseAttention) (word : String) (distance : Int)
    (bound : String) : List (String × Nat) :=
  (b.search word bound).foldl (fun word_counts result =>
    let tks := pySplit result
    if tks.contains word = false then word_counts
    else
      let word_index := tks.findIdx (fun x => x = word)
      let cast_index : Int := (word_index : Int) - distance
      if 0 ≤ cast_index ∧ cast_index < tks.length then
        bumpCount word_counts (tks.getD cast_index.toNat "")
      else word_counts) []

def insertAscByDf (df : String → Nat) (w : String) : List String → List String
  | [] => [w]
  | x :: xs => if df x ≤ df w then x :: insertAscByDf df w xs else w :: x :: xs

/-- `sorted(rare_words, key=lambda x: idf[vocab[x]], reverse=True)`: the
smoothed idf is strictly decreasing in the document frequency, and
Python's sort is stable, so this is the stable ascending sort by document
frequency. -/
def sortAscByDf (df : String → Nat) (l : List String) : List String :=
  l.foldl (fun acc w => insertAscByDf df w acc) []

def insertDescByCount (x : String × Nat) :
    List (String × Nat) → List (String × Nat)
  | [] => [x]
  | y :: ys => if x.2 ≤ y.2 then y :: insertDescByCount x ys else x :: y :: ys

/-- `Counter.most_common()`: stable descending by count. -/
def sortDescByCount (l : List (String × Nat)) : List (String × Nat) :=
  l.foldl (fun acc x => insertDescByCount x acc) []

/-- `combine_counts` (bia.py:144-161): each word scores the number of
counters that mention it (vocabulary members only), descending. -/
def BidirectionalInverseAttention.combine_counts
    (b : BidirectionalInverseAttention)
    (counts_list : List (List (String × Nat))) : List (String × Nat) :=
  sortDescByCount (counts_list.foldl (fun counts count =>
    count.foldl (fun counts p =>
      if b.vocab.contains p.1 = false then counts
      else bumpCount counts p.1) counts) [])

/-- `predict` (bia.py:163-191).  `target` is the index of the first token
containing `[MASK]` (a query without one raises in Python; the total model
returns the list length there).  Distances use `_text.index(word)` — the
FIRST occurrence of the word, also for repeated words. -/
def BidirectionalInverseAttention.predict (b : BidirectionalInverseAttention)
    (query : String) (top_n : Nat) (bound : String) : List (String × Nat) :=
  let t := pySplit query
  let target := t.findIdx (fun w => containsSub w.data "[MASK]".data)
  let rare_words :=
    (sortAscByDf b.docFreq (t.filter (fun w => b.vocab.contains w))).take top_n
  let probabilities := t.filterMap (fun word =>
    let distance : Int := (t.findIdx (fun x => x = word) : Int) - (target : Int)
    if rare_words.contains word || distance.natAbs < 1 then
      some (b.predict_from word distance bound)
    else none)
  b.combine_counts probabilities

/-- Python `_text.endswith(" ")`. -/
def endsWithSpace (t : String) : Bool :=
  match t.data.getLast? with
  | some c => c = ' '
  | none => false

/-- The masked continuation query of `get_possible_next`. -/
def appendMask (t : String) : String :=
  if endsWithSpace t then t ++ "[MASK] " else t ++ " [MASK] "

/-- `get_possible_next` (bia.py:237-255): top predictions for the next
word, truncated to `options*4`, then filtered by the adjacency model. -/
def BidirectionalInverseAttention.get_possible_next
    (b : BidirectionalInverseAttention) (t : String) (options : Nat) :
    List String :=
  let last := (pySplit t).getLast?.getD ""
  let t2 := appendMask t
  let next_words := ((b.predict t2 15 "").map Prod.fst).take (options * 4)
  next_words.filter (fun option => b.chain.can_be_next last option)

/-! ## C3: Scenario B -/

def c3bia : BidirectionalInverseAttention :=
  mkBIA "the cat sat on the mat. the dog sat on the rug."

/-- **C3.**  On the Scenario B corpus the code does NOT include `"mat"`:
`getPossibleNext("the cat sat on the", 3)` returns `[]`.  Both sentences
are relevant to every inner search (indices `0` and `1`), but `search`
sets `end = len(relevant_indices) - 1 = 1` — a count used as an index
bound — and keeps only indices with `0 < i < 1`, so every search inside
`predict` returns no sentences and no votes are ever cast. -/
theorem c3_code_result :
    c3bia.sentences = ["the cat sat on the mat", "the dog sat on the rug"] ∧
    BidirectionalInverseAttention.search c3bia "the cat sat on the" "" = [] ∧
    BidirectionalInverseAttention.get_possible_next c3bia "the cat sat on the" 3 = [] := by
  decide

/-! ## C10: vacuous adjacency filtering -/

theorem zip_drop_fst {α : Type} :
    ∀ l : List α, (l.zip (l.drop 1)).map Prod.fst = l.dropLast
  | [] => rfl
  | [_] => rfl
  | x :: y :: rest => by
    have ih := zip_drop_fst (y :: rest)
    simp only [List.drop_succ_cons, List.drop_zero, List.zip_cons_cons,
      List.map_cons] at ih ⊢
    rw [ih]
    rfl

theorem find?_none_iff_lookupKey {β : Type} (d : List (String × β)) (r : String) :
    d.find? (fun p => p.1 = r) = none ↔ lookupKey d r = none := by
  unfold lookupKey
  cases d.find? (fun p => p.1 = r) <;> simp

/-- A word that never occurs before another word of the corpus is not a
key of the successor mapping. -/
theorem mapping_lookup_none (corpus w : String)
    (hw : w ∉ (pySplit corpus).dropLast) :
    (mkMarkovChain corpus).mapping.find? (fun p => p.1 = w) = none := by
  unfold mkMarkovChain
  dsimp only
  have hkeys : ∀ p ∈ (pySplit corpus).zip ((pySplit corpus).drop 1), p.1 ≠ w := by
    intro p hp hpe
    apply hw
    rw [← zip_drop_fst (pySplit corpus)]
    exact hpe ▸ List.mem_map_of_mem Prod.fst hp
  have main : ∀ (ps : List (String × String)) (m : List (String × List String)),
      (∀ p ∈ ps, p.1 ≠ w) → m.find? (fun p => p.1 = w) = none →
      (ps.foldl (fun m p => addPair m p.1 p.2) m).find? (fun p => p.1 = w) = none := by
    intro ps
    induction ps with
    | nil => intro m _ hm; exact hm
    | cons q qs ih =>
      intro m hps hm
      apply ih
      · intro p hp; exact hps p (List.mem_cons_of_mem _ hp)
      · have hq : q.1 ≠ w := hps q (List.mem_cons_self _ _)
        have hm' := (find?_none_iff_lookupKey _ _).mp hm
        apply (find?_none_iff_lookupKey _ _).mpr
        unfold addPair
        dsimp only
        split
        · rw [lookupKey_updateVal, if_neg (fun h => hq h.symm), hm']
        · rw [lookupKey_append_single, hm', if_neg (fun h => hq h.symm)]
          rfl
  exact main _ [] hkeys rfl

/-- **C10.**  (1) For every corpus, every candidate `c` and every word `w`
that never occurs as a non-final whitespace token of the corpus,
`can_be_next w c` returns `true` ("cause why not").  (2) Consequently
`get_possible_next` applies no adjacency filtering when the last word of
the input was never seen with a successor: the result is exactly the
first `options*4` predicted words. -/
theorem c10_vacuous_adjacency :
    (∀ corpus w c : String,
        w ∉ (pySplit corpus).dropLast →
        (mkMarkovChain corpus).can_be_next w c = true) ∧
    (∀ (raw t : String) (k : Nat),
        (pySplit t).getLast?.getD "" ∉ (pySplit (pyLower raw)).dropLast →
        (mkBIA raw).get_possible_next t k =
          (((mkBIA raw).predict (appendMask t) 15 "").map Prod.fst).take (k * 4)) := by
  have part1 : ∀ corpus w c : String,
      w ∉ (pySplit corpus).dropLast →
      (mkMarkovChain corpus).can_be_next w c = true := by
    intro corpus w c hw
    unfold MarkovChain.can_be_next
    rw [mapping_lookup_none corpus w hw]
  refine ⟨part1, ?_⟩
  intro raw t k hw
  unfold BidirectionalInverseAttention.get_possible_next
  dsimp only
  rw [List.filter_eq_self.mpr]
  intro option _
  exact part1 (pyLower raw) _ option hw

/-- **C10, witness.**  In the corpus `"a b"` the word `"b"` is final-only:
`can_be_next "b" c` is `true` for an arbitrary candidate, and
`get_possible_next` on a text ending in `"b"` is the unfiltered
truncation of the predictions. -/
theorem c10_vacuous_adjacency_witness :
    (mkMarkovChain "a b").can_be_next "b" "zzz" = true ∧
    (mkBIA "a b").get_possible_next "x b" 2 =
      (((mkBIA "a b").predict (appendMask "x b") 15 "").map Prod.fst).take (2 * 4) :=
  ⟨c10_vacuous_adjacency.1 "a b" "b" "zzz" (by decide),
   c10_vacuous_adjacency.2 "a b" "x b" 2 (by decide)⟩

end CodexEditor
